import Mathlib

/-!
# stagit-index: a shallow embedding of `stagit-index.c`

Bytes are natural numbers (the `unsigned char` value of a C `char`), and the
standard output stream is the list of bytes written so far.

A character buffer is modelled by the list of bytes stored in it before its
final terminating NUL.  A buffer filled from a file may hold a `0` earlier; the
string C sees in it is then the part before the first `0` (`cstr`), and
`strlen` and `xmlencode` stop there.  Paths, arguments and string literals hold
no NUL: for them the list is the whole string.

The outside world (the file system, `realpath`, libgit2, the constant
`PATH_MAX`) is a parameter `Env` of the program; `gmtime`, `strftime`,
`snprintf` and `fgets` are given by their C library behaviour, with `int`
results kept within the range of `int`.
-/

set_option maxRecDepth 20000

namespace StagitIndex

/-- Bytes of an ASCII string literal. -/
def bytes (s : String) : List Nat := s.toList.map Char.toNat

/-- The C function `strlen`: number of bytes before the first NUL. -/
def strlen : List Nat → Nat
  | [] => 0
  | c :: s => if c = 0 then 0 else strlen s + 1

/-- The string a C function sees in a buffer: the bytes before the first NUL. -/
def cstr : List Nat → List Nat
  | [] => []
  | c :: s => if c = 0 then [] else c :: cstr s

/-! ## `xmlencode` (lines 31-47) -/

/-- One pass through the body of the `switch` in `xmlencode`: what is written to
`fp` for the byte `c`. -/
def xmlencodeByte (fp : List Nat) (c : Nat) : List Nat :=
  if c = 60 then fp ++ bytes "&lt;"          -- case '<'
  else if c = 62 then fp ++ bytes "&gt;"     -- case '>'
  else if c = 39 then fp ++ bytes "&#39;"    -- case '\''
  else if c = 38 then fp ++ bytes "&amp;"    -- case '&'
  else if c = 34 then fp ++ bytes "&quot;"   -- case '"'
  else fp ++ [c]                             -- default: fputc(*s, fp)

/-- The `for` loop of `xmlencode`: `s` is the rest of the buffer at the pointer
`s`, `i` the loop counter; the loop runs while `*s && i < len`. -/
def xmlencodeLoop (len : Nat) : List Nat → Nat → List Nat → List Nat
  | [], _, fp => fp
  | c :: s, i, fp =>
    if c ≠ 0 ∧ i < len then xmlencodeLoop len s (i + 1) (xmlencodeByte fp c) else fp

/-- The function `xmlencode(fp, s, len)`; the result is the new content of `fp`. -/
def xmlencode (fp : List Nat) (s : List Nat) (len : Nat) : List Nat :=
  xmlencodeLoop len s 0 fp

/-- The image of one byte under the escaping the specification describes. -/
def escapeImage (c : Nat) : List Nat :=
  if c = 60 then bytes "&lt;"
  else if c = 62 then bytes "&gt;"
  else if c = 39 then bytes "&#39;"
  else if c = 38 then bytes "&amp;"
  else if c = 34 then bytes "&quot;"
  else [c]

/-- The escaped form of a whole byte sequence: the images of its bytes, in order. -/
def escapeAll (s : List Nat) : List Nat := s.flatMap escapeImage

/-! ## `joinpath` (lines 19-29)

The strings `joinpath` sees are operating-system paths and string literals; they
hold no NUL, and the list is the whole string. -/

/-- The separator argument of the `snprintf` call:
`path[0] && path[strlen(path) - 1] != '/' ? "/" : ""`. -/
def pathSep (path : List Nat) : List Nat :=
  if path ≠ [] ∧ path.getLast? ≠ some 47 then bytes "/" else []

/-- The largest value of the C type `int`. -/
def INT_MAX : Nat := 2147483647

/-- The C library call `snprintf(buf, bufsiz, "%s%s%s", a, b, c)`: the result is
the length of the whole formatted string, or -1 (the error `EOVERFLOW`) when
that length is larger than `INT_MAX`; `buf` receives at most `bufsiz - 1` bytes
of the string. -/
def snprintf3 (bufsiz : Nat) (a b c : List Nat) : Int × List Nat :=
  let s := a ++ b ++ c
  (if s.length ≤ INT_MAX then (s.length : Int) else -1, s.take (bufsiz - 1))

/-- The function `joinpath(buf, bufsiz, path, path2)`: `none` is the fatal exit
through `errx(1, "path truncated: ...")`, `some buf` the content left in `buf`. -/
def joinpath (bufsiz : Nat) (path path2 : List Nat) : Option (List Nat) :=
  let r := snprintf3 bufsiz path (pathSep path) path2
  if r.1 < 0 ∨ r.1.toNat ≥ bufsiz then none else some r.2

/-- The string the specification calls the joined path: `P ++ sep ++ F`, where
`sep` is "/" exactly when `P` is non-empty and does not end with '/'. -/
def joined (P F : List Nat) : List Nat :=
  P ++ (if P ≠ [] ∧ ¬ (bytes "/") <:+ P then bytes "/" else []) ++ F

/-! ## The display name (lines 115-120 and 179-183) -/

/-- The scan of the C function `strrchr`: `i` is the offset of the byte looked
at, `last` the offset of the last match so far. -/
def strrchrLoop (c : Nat) : List Nat → Nat → Option Nat → Option Nat
  | [], _, last => last
  | x :: s, i, last => strrchrLoop c s (i + 1) (if x = c then some i else last)

/-- The C function `strrchr(s, c)` for a non-NUL `c`: the offset of the last
occurrence of `c` in `s`, or `none` for the null pointer. -/
def strrchr (s : List Nat) (c : Nat) : Option Nat := strrchrLoop c s 0 none

/-- Lines 116-120 of `writelog`: the copy of `name` with the suffix stripped.
`p = strrchr(stripped_name, '.')`; when `strcmp(p, ".git")` is 0, `*p = 0`. -/
def strippedName (name : List Nat) : List Nat :=
  match strrchr name 46 with
  | some p => if name.drop p = bytes ".git" then name.take p else name
  | none => name

/-- Lines 180-183 of `main`: `name` is what follows the last '/' of the resolved
path, or "" when there is no '/'. -/
def baseName (repodirabs : List Nat) : List Nat :=
  match strrchr repodirabs 47 with
  | some p => repodirabs.drop (p + 1)
  | none => []

/-! ## Reading one line: `fgets` -/

/-- The read loop of the C function `fgets`: at most `n` more bytes, stopping
after a newline or at end of file. -/
def fgetsLoop : Nat → List Nat → List Nat
  | 0, _ => []
  | _ + 1, [] => []
  | n + 1, c :: r => if c = 10 then [c] else c :: fgetsLoop n r

/-- The C function `fgets(buf, size, fp)` on a stream with the content `stream`
left to read: `none` is the null pointer (end of file before any byte), `some l`
the bytes stored in `buf` before the terminating NUL. -/
def fgets (size : Nat) (stream : List Nat) : Option (List Nat) :=
  match stream with
  | [] => none
  | _ :: _ => some (fgetsLoop (size - 1) stream)

/-- The C function `strcspn(s, "\n")`: the number of bytes of the string before
its first newline. -/
def strcspnNewline : List Nat → Nat
  | [] => 0
  | c :: s => if c = 0 ∨ c = 10 then 0 else strcspnNewline s + 1

/-! ## `printtimeshort` (lines 49-61) -/

/-- The libgit2 type `git_time`: seconds since the epoch and the author's
timezone offset in minutes. -/
structure GitTime where
  time : Int
  offset : Int
deriving DecidableEq, Repr

/-- The fields of `struct tm` that the format uses; `year` is the calendar
year (`tm_year + 1900`) and `mon` the month 1..12 (`tm_mon + 1`). -/
structure Tm where
  year : Int
  mon : Int
  mday : Int
  hour : Int
  min : Int
deriving DecidableEq, Repr

/-- The proleptic Gregorian date (year, month, day) of the day `z` days after
1970-01-01.  The days are counted from 0000-03-01 in cycles of 400 years
(146097 days), centuries (36524 days), four years (1461 days) and years (365
days); the last century of a cycle and the last year of four have one day
more.  The year starts in March, so that the leap day comes last. -/
def civilFromDays (z : Int) : Int × Int × Int :=
  let z := z + 719468
  let era := z / 146097
  let doe := z % 146097
  let c := if doe / 36524 = 4 then 3 else doe / 36524
  let r := doe - c * 36524
  let q := r / 1461
  let s := r - q * 1461
  let y1 := if s / 365 = 4 then 3 else s / 365
  let doy := s - y1 * 365
  let mp := (5 * doy + 2) / 153
  let d := doy - (153 * mp + 2) / 5 + 1
  let m := if mp < 10 then mp + 3 else mp - 9
  (if m ≤ 2 then era * 400 + (c * 100 + q * 4 + y1) + 1
    else era * 400 + (c * 100 + q * 4 + y1), m, d)

/-- The C library function `gmtime` for a 64-bit `time_t`: the broken-down UTC
time, or `none` (the null pointer) when `tm_year` does not fit in an `int`. -/
def gmtime (t : Int) : Option Tm :=
  let date := civilFromDays (t / 86400)
  let secs := t % 86400
  if -2147483648 ≤ date.1 - 1900 ∧ date.1 - 1900 ≤ 2147483647 then
    some ⟨date.1, date.2.1, date.2.2, secs / 3600, secs % 3600 / 60⟩
  else none

/-- Decimal digits of a natural number, as bytes. -/
def decimal (n : Nat) : List Nat := (Nat.toDigits 10 n).map Char.toNat

/-- A number below 100 as two decimal digits (the conversions `%m %d %H %M`). -/
def twoDigits (n : Int) : List Nat := [48 + (n / 10).toNat, 48 + (n % 10).toNat]

/-- The value of an arithmetic result in the C type `int` (two's complement,
32 bits). -/
def intWrap (x : Int) : Int := (x + 2147483648) % 4294967296 - 2147483648

/-- The C library call `strftime(out, 32, "%Y-%m-%d %H:%M", intm)`: the bytes
stored in `out`.  The conversion `%Y` prints `tm_year + 1900`, computed in
`int`, in decimal without padding (four digits for the years 1000 to 9999).
The longest result has 23 bytes, so it always fits. -/
def strftimeShort (tm : Tm) : List Nat :=
  let year := intWrap tm.year
  (if year < 0 then 45 :: decimal year.natAbs else decimal year.toNat)
    ++ [45] ++ twoDigits tm.mon ++ [45] ++ twoDigits tm.mday
    ++ [32] ++ twoDigits tm.hour ++ [58] ++ twoDigits tm.min

/-- The function `printtimeshort(fp, intime)`: nothing is written when `gmtime`
returns the null pointer. -/
def printtimeshort (fp : List Nat) (intime : GitTime) : List Nat :=
  match gmtime intime.time with
  | none => fp
  | some intm => fp ++ strftimeShort intm

/-! ## The program state and its environment -/

/-- What the program reads from the outside world: the platform constant
`PATH_MAX`, the C library call `realpath`, the libgit2 calls, and the files. -/
structure Env where
  /-- The constant `PATH_MAX` of `limits.h`. -/
  PATH_MAX : Nat
  /-- The constant `PATH_MAX` is an `int` constant. -/
  PATH_MAX_int : PATH_MAX ≤ INT_MAX
  /-- The call `realpath(repodir, repodirabs)`: `none` is the null pointer. -/
  realpath : List Nat → Option (List Nat)
  /-- Whether `git_repository_open_ext(&repo, repodir, ...)` succeeds (returns 0). -/
  repository_open : List Nat → Bool
  /-- The call `fopen(path, "r")`: `none` is the null pointer, `some c` a stream
  with the content `c`. -/
  fopen : List Nat → Option (List Nat)
  /-- The head commit of the repository opened at `repodir`: `none` when
  `git_revwalk_next` or `git_commit_lookup` fails, else `some author`, what
  `git_commit_author` returns (`none` for the null pointer, else `author->when`). -/
  head : List Nat → Option (Option GitTime)

/-- The initial value of the global `description` (line 15). -/
def defaultDescription : List Nat := bytes "Oscar Benedito's Git repositories"

/-- The global variables `description`, `name`, `owner`, together with the
content of `stdout` and the local `ret` of `main`.  A buffer is given by the
bytes before its terminating NUL; `description[0] = 0` leaves `[]`. -/
structure State where
  out : List Nat
  ret : Int
  description : List Nat
  name : List Nat
  owner : List Nat
deriving DecidableEq, Repr

/-- How the process ends: `exited` through `err`/`errx`, or `returned` from
`main`; both carry the exit status and everything written to `stdout`. -/
inductive Outcome where
  | exited (code : Int) (out : List Nat)
  | returned (code : Int) (out : List Nat)
deriving DecidableEq, Repr

/-- The function `writeheader(fp)`, with `relpath = ""`. -/
def writeheader (fp : List Nat) (description : List Nat) : List Nat :=
  let fp := fp ++ bytes ("<!DOCTYPE html>\n"
    ++ "<html>\n<head>\n"
    ++ "<meta http-equiv=\"Content-Type\" content=\"text/html; charset=UTF-8\" />\n"
    ++ "<meta name=\"viewport\" content=\"width=device-width, initial-scale=1\">\n"
    ++ "<title>Git Repositories | Oscar Benedito</title>\n")
  let fp := fp ++ bytes "<link rel=\"icon\" type=\"image/png\" href=\"favicon.ico\" />\n"
  let fp := fp ++ bytes "<link rel=\"stylesheet\" type=\"text/css\" href=\"style.css\" />\n"
  let fp := fp ++ bytes "</head>\n<body id=\"home\">\n<h1>"
  let fp := xmlencode fp description (strlen description)
  fp ++ bytes ("</h1>\n<div id=\"content\">\n"
    ++ "<h2 id=\"repositories\">Repositories</h2>\n"
    ++ "<div class=\"table-container\">\n<table id=\"index\"><thead>\n"
    ++ "<tr><td><b>Name</b></td><td><b>Description</b></td><td><b>Last commit</b></td></tr>"
    ++ "</thead><tbody>\n")

/-- The text `writefooter` writes; the apostrophe of "don’t" is the three bytes
of U+2019 in UTF-8. -/
def footerText : List Nat :=
  bytes ("</tbody>\n</table>\n</div>\n"
    ++ "<h2 id=\"contribute\">Contribute</h2>\n"
    ++ "<p>The best way to contribute to my repositories is through e-mail, check out <a href=\"https://git-send-email.io\">git-send-email.io</a> if you don")
  ++ [226, 128, 153]
  ++ bytes ("t know how to do that. Send your patches to <a href=\"mailto:patches@oscarbenedito.com\">patches@oscarbenedito.com</a> and change the subject prefix to specify the repository you are sending the patch for. You can do that running the following command from the git repository:</p>\n"
    ++ "<pre><code>git config format.subjectPrefix \"PATCH &lt;name-of-repository&gt;\"</code></pre>\n"
    ++ "<p>You can also contribute on <a href=\"https://gitlab.com/oscarbenedito\">GitLab</a> or <a href=\"https://github.com/oscarbenedito\">GitHub</a> (all my public repositories should be on both platforms) doing pull requests.</p>\n"
    ++ "</div>\n</body>\n</html>\n")

/-- The function `writefooter(fp)`. -/
def writefooter (fp : List Nat) : List Nat := fp ++ footerText

/-- The function `writelog(fp)` for the repository opened at `repodir`: the
return value and the new content of `fp`. -/
def writelog (env : Env) (repodir : List Nat) (name description : List Nat)
    (fp : List Nat) : Int × List Nat :=
  match env.head repodir with
  | none => (-1, fp)                          -- ret = -1; goto err
  | some author =>
    let stripped_name := strippedName name
    let fp := fp ++ bytes "<tr><td><a href=\""
    let fp := xmlencode fp stripped_name (strlen stripped_name)
    let fp := fp ++ bytes "/\">"
    let fp := xmlencode fp stripped_name (strlen stripped_name)
    let fp := fp ++ bytes "</a></td><td>"
    let fp := xmlencode fp description (strlen description)
    let fp := fp ++ bytes "</td><td>"
    let fp := match author with
      | some when => printtimeshort fp when
      | none => fp
    (0, fp ++ bytes "</td></tr>")

/-- Lines 185-196 of `main`: the new value of `description`, or `none` when a
`joinpath` ends the process. -/
def readDescription (env : Env) (repodir : List Nat) : Option (List Nat) :=
  match joinpath env.PATH_MAX repodir (bytes "description") with
  | none => none
  | some path =>
    let fp : Option (Option (List Nat)) :=
      match env.fopen path with
      | some f => some (some f)
      | none =>
        match joinpath env.PATH_MAX repodir (bytes ".git/description") with
        | none => none
        | some path => some (env.fopen path)
    match fp with
    | none => none
    | some none => some []                    -- description[0] = 0, fp is null
    | some (some f) =>
      match fgets 255 f with
      | none => some []                       -- fgets fails: description[0] = 0
      | some line => some line

/-- Lines 198-210 of `main`: the new value of `owner`, or `none` when a
`joinpath` ends the process. -/
def readOwner (env : Env) (repodir : List Nat) : Option (List Nat) :=
  match joinpath env.PATH_MAX repodir (bytes "owner") with
  | none => none
  | some path =>
    let fp : Option (Option (List Nat)) :=
      match env.fopen path with
      | some f => some (some f)
      | none =>
        match joinpath env.PATH_MAX repodir (bytes ".git/owner") with
        | none => none
        | some path => some (env.fopen path)
    match fp with
    | none => none
    | some none => some []
    | some (some f) =>
      let owner := match fgets 255 f with
        | none => []
        | some line => line
      some (owner.take (strcspnNewline owner))

/-- The result of one pass through the body of the loop of `main`. -/
inductive Step where
  | fatal (out : List Nat)
  | next (st : State)
deriving DecidableEq, Repr

/-- The body of the `for` loop of `main` (lines 168-211) for `repodir = argv[i]`. -/
def iteration (env : Env) (st : State) (repodir : List Nat) : Step :=
  match env.realpath repodir with
  | none => Step.fatal st.out                                -- err(1, "realpath")
  | some repodirabs =>
    if env.repository_open repodir = false then
      Step.next { st with ret := 1 }                         -- ret = 1; continue
    else
      let name := baseName repodirabs
      match readDescription env repodir with
      | none => Step.fatal st.out
      | some description =>
        match readOwner env repodir with
        | none => Step.fatal st.out
        | some owner =>
          let r := writelog env repodir name description st.out
          Step.next { out := r.2, ret := st.ret, description := description,
                      name := name, owner := owner }

/-- The `for` loop of `main` over `argv[1]`, ..., `argv[argc - 1]`. -/
def mainLoop (env : Env) : State → List (List Nat) → Step
  | st, [] => Step.next st
  | st, repodir :: rest =>
    match iteration env st repodir with
    | Step.fatal out => Step.fatal out
    | Step.next st => mainLoop env st rest

/-- The state when the loop of `main` starts: the header is written, the globals
hold their initial values. -/
def initialState : State :=
  { out := writeheader [] defaultDescription, ret := 0,
    description := defaultDescription, name := [], owner := [] }

/-- The function `main`; `args` is `argv[1]`, ..., `argv[argc - 1]`.  What goes
to `stderr` is not recorded. -/
def main (env : Env) (args : List (List Nat)) : Outcome :=
  if args = [] then Outcome.returned 1 []                    -- argc < 2
  else
    match mainLoop env initialState args with
    | Step.fatal out => Outcome.exited 1 out
    | Step.next st => Outcome.returned st.ret (writefooter st.out)

/-! ## Entity decoding, as the specification words it -/

/-- The character reference that starts the text `s`, if any of the five
does: the decoded byte and the number of bytes of the reference after its '&'. -/
def decodeRef (s : List Nat) : Option (Nat × Nat) :=
  if bytes "&lt;" <+: s then some (60, 3)
  else if bytes "&gt;" <+: s then some (62, 3)
  else if bytes "&#39;" <+: s then some (39, 4)
  else if bytes "&amp;" <+: s then some (38, 4)
  else if bytes "&quot;" <+: s then some (34, 5)
  else none

/-- Decoding with `skip` bytes of an already decoded reference still to pass. -/
def htmlDecodeFrom : Nat → List Nat → List Nat
  | _, [] => []
  | skip + 1, _ :: r => htmlDecodeFrom skip r
  | 0, c :: r =>
    match decodeRef (c :: r) with
    | some (ch, n) => ch :: htmlDecodeFrom n r
    | none => c :: htmlDecodeFrom 0 r

/-- HTML entity decoding of the references `&lt; &gt; &#39; &amp; &quot;`: each
reference becomes its character, every other byte is kept. -/
def htmlDecode (s : List Nat) : List Nat := htmlDecodeFrom 0 s

/-- The five character references. -/
def references : List (List Nat) :=
  [bytes "&lt;", bytes "&gt;", bytes "&#39;", bytes "&amp;", bytes "&quot;"]

/-! ## The rendered document, as the specification words it -/

/-- The first line of a file, newline included, cut to at most `n` bytes. -/
def firstLine (n : Nat) (content : List Nat) : List Nat :=
  (content.take ((content.takeWhile (· ≠ 10)).length + 1)).take n

/-- One table row: `E` is `xmlencode` over the full string, `T` the text of the
last-commit cell. -/
def rowText (n d T : List Nat) : List Nat :=
  bytes "<tr><td><a href=\"" ++ xmlencode [] n (strlen n) ++ bytes "/\">"
    ++ xmlencode [] n (strlen n) ++ bytes "</a></td><td>"
    ++ xmlencode [] d (strlen d) ++ bytes "</td><td>" ++ T ++ bytes "</td></tr>"

/-- The header of the document. -/
def headerText : List Nat := writeheader [] defaultDescription

/-- The candidate paths of a repository's metadata files fit in the path
buffer: the longest one, `.git/description`, is shorter than `PATH_MAX`. -/
def Fits (env : Env) (repodir : List Nat) : Prop :=
  (joined repodir (bytes ".git/description")).length < env.PATH_MAX

instance (env : Env) (repodir : List Nat) : Decidable (Fits env repodir) := by
  unfold Fits
  infer_instance

/-- The display name of a repository argument: the last segment of its resolved
path, without one trailing ".git". -/
def displayName (env : Env) (repodir : List Nat) : List Nat :=
  match env.realpath repodir with
  | some repodirabs => strippedName (baseName repodirabs)
  | none => []

/-- The description of a repository: the first line of its `description` file,
else of its `.git/description` file, else empty. -/
def resolvedDescription (env : Env) (repodir : List Nat) : List Nat :=
  match env.fopen (joined repodir (bytes "description")) with
  | some c => firstLine 254 c
  | none =>
    match env.fopen (joined repodir (bytes ".git/description")) with
    | some c => firstLine 254 c
    | none => []

/-- The text of the last-commit cell for an author time: `YYYY-MM-DD HH:MM` of
the time in UTC. -/
def timeText (t : Int) : List Nat :=
  match gmtime t with
  | some tm => strftimeShort tm
  | none => []

/-- The leap years of the Gregorian calendar. -/
def isLeapYear (y : Int) : Prop := y % 4 = 0 ∧ (y % 100 ≠ 0 ∨ y % 400 = 0)

instance (y : Int) : Decidable (isLeapYear y) := by
  unfold isLeapYear
  infer_instance

/-- The number of days of month `m` (1 to 12) of year `y`. -/
def monthLength (y m : Int) : Int :=
  if m = 2 then (if isLeapYear y then 29 else 28)
  else if m = 4 ∨ m = 6 ∨ m = 9 ∨ m = 11 then 30 else 31

/-- The number of days of year `y` before its month `m` (1 to 12). -/
def daysBeforeMonth (y m : Int) : Int :=
  (if m = 1 then 0 else if m = 2 then 31 else if m = 3 then 59 else if m = 4 then 90
    else if m = 5 then 120 else if m = 6 then 151 else if m = 7 then 181
    else if m = 8 then 212 else if m = 9 then 243 else if m = 10 then 273
    else if m = 11 then 304 else 334)
  + (if isLeapYear y ∧ 2 < m then 1 else 0)

/-- The number of days from 1970-01-01 to day `d` of month `m` of year `y` in
the Gregorian calendar: 365 days for every earlier year, one more for every
earlier leap year, the days of the earlier months of the year, and `d`. -/
def daysFromCivil (y m d : Int) : Int :=
  365 * (y - 1) + ((y - 1) / 4 - (y - 1) / 100 + (y - 1) / 400)
    + daysBeforeMonth y m + d - 719163

/-- The text `YYYY-MM-DD HH:MM`: four digits for the year, two for the month,
the day, the hour and the minute. -/
def shortTimeText (Y M D h m : Nat) : List Nat :=
  [48 + Y / 1000, 48 + Y / 100 % 10, 48 + Y / 10 % 10, 48 + Y % 10, 45,
    48 + M / 10, 48 + M % 10, 45, 48 + D / 10, 48 + D % 10, 32,
    48 + h / 10, 48 + h % 10, 58, 48 + m / 10, 48 + m % 10]

/-- The text of the last-commit cell for what `git_commit_author` returns. -/
def timeCell : Option GitTime → List Nat
  | some when => timeText when.time
  | none => []

/-- What a completed pass of the loop writes for a repository argument: nothing
when the repository does not open or has no head commit, else its row. -/
def rowOf (env : Env) (repodir : List Nat) : List Nat :=
  if env.repository_open repodir = false then []
  else
    match env.head repodir with
    | none => []
    | some author =>
      rowText (displayName env repodir) (resolvedDescription env repodir) (timeCell author)

/-! ## A concrete environment

Repositories under `/srv/git`, on a platform with `PATH_MAX = 4096`:
`blog.git` has a `description` file and a head commit, `wiki` has only
`.git/description`, `wide` has a `description` file of one line of 300 bytes,
`notes` and `long` have a head commit and no description file, `tools` has no
commit and no file, `future` has a head commit whose author time lies beyond
what `gmtime` can represent, the head commits of `y10k` and `y999` have the
author times 10000-01-01T00:00:00Z and 0999-12-31T23:59:59Z, and `missing` is
not a repository.  The arguments
`longPath` and `longTools` name `long` and `tools` through 2040 repetitions of
`./`. -/

/-- The text "./" repeated `n` times. -/
def dotSlash : Nat → List Nat
  | 0 => []
  | n + 1 => 46 :: 47 :: dotSlash n

/-- The argument `/srv/git/./././ ... /long`, 4093 bytes long. -/
def longPath : List Nat := bytes "/srv/git/" ++ dotSlash 2040 ++ bytes "long"

/-- The argument `/srv/git/./././ ... /tools`, 4094 bytes long. -/
def longTools : List Nat := bytes "/srv/git/" ++ dotSlash 2040 ++ bytes "tools"

/-- The environment described above. -/
def exampleEnv : Env where
  PATH_MAX := 4096
  PATH_MAX_int := by decide
  realpath := fun p =>
    if p = longPath then some (bytes "/srv/git/long")
    else if p = longTools then some (bytes "/srv/git/tools")
    else some p
  repository_open := fun p => decide (p ≠ bytes "/srv/git/missing")
  fopen := fun p =>
    if p = bytes "/srv/git/blog.git/description" then some (bytes "My blog")
    else if p = bytes "/srv/git/wiki/.git/description" then
      some (bytes "Project wiki\nsecond line\n")
    else if p = bytes "/srv/git/wide/description" then some (List.replicate 300 120)
    else none
  head := fun p =>
    if p = bytes "/srv/git/tools" ∨ p = longTools then none
    else if p = bytes "/srv/git/future" then some (some ⟨4611686018427387904, 0⟩)
    else if p = bytes "/srv/git/y10k" then some (some ⟨253402300800, 0⟩)
    else if p = bytes "/srv/git/y999" then some (some ⟨-30610224001, 0⟩)
    else some (some ⟨1672574400, 120⟩)

/-- The author time of the head commit of a repository (0 when there is none). -/
def authorTime (env : Env) (repodir : List Nat) : Int :=
  match env.head repodir with
  | some (some when) => when.time
  | _ => 0

/-! ## Facts about the string helpers -/

theorem bytes_lt : bytes "&lt;" = [38, 108, 116, 59] := by decide
theorem bytes_gt : bytes "&gt;" = [38, 103, 116, 59] := by decide
theorem bytes_apos : bytes "&#39;" = [38, 35, 51, 57, 59] := by decide
theorem bytes_amp : bytes "&amp;" = [38, 97, 109, 112, 59] := by decide
theorem bytes_quot : bytes "&quot;" = [38, 113, 117, 111, 116, 59] := by decide
theorem bytes_slash : bytes "/" = [47] := by decide
theorem bytes_dotgit : bytes ".git" = [46, 103, 105, 116] := by decide

theorem xmlencodeByte_eq (fp : List Nat) (c : Nat) :
    xmlencodeByte fp c = fp ++ escapeImage c := by
  unfold xmlencodeByte escapeImage
  split_ifs <;> simp

theorem escapeAll_nil : escapeAll [] = [] := rfl

theorem escapeAll_cons (c : Nat) (s : List Nat) :
    escapeAll (c :: s) = escapeImage c ++ escapeAll s := by
  simp [escapeAll]

theorem escapeAll_append (a b : List Nat) :
    escapeAll (a ++ b) = escapeAll a ++ escapeAll b := by
  simp [escapeAll]

theorem xmlencodeLoop_eq (len : Nat) (s : List Nat) :
    ∀ (i : Nat) (fp : List Nat),
      xmlencodeLoop len s i fp = fp ++ escapeAll (s.take (min (strlen s) (len - i))) := by
  induction s with
  | nil => intro i fp; simp [xmlencodeLoop, escapeAll_nil]
  | cons c s ih =>
    intro i fp
    unfold xmlencodeLoop
    by_cases h : c ≠ 0 ∧ i < len
    · rw [if_pos h, ih, xmlencodeByte_eq]
      have h1 : min (strlen (c :: s)) (len - i) = min (strlen s) (len - (i + 1)) + 1 := by
        simp only [strlen, if_neg h.1]
        omega
      rw [h1, List.take_succ_cons, escapeAll_cons, List.append_assoc]
    · rw [if_neg h]
      have h1 : min (strlen (c :: s)) (len - i) = 0 := by
        by_cases hc : c = 0
        · simp [strlen, hc]
        · have : ¬ i < len := fun hi => h ⟨hc, hi⟩
          omega
      rw [h1]
      simp [escapeAll_nil]

theorem xmlencode_eq (fp s : List Nat) (len : Nat) :
    xmlencode fp s len = fp ++ escapeAll (s.take (min (strlen s) len)) := by
  unfold xmlencode
  rw [xmlencodeLoop_eq]
  simp

theorem strlen_eq_length_cstr (s : List Nat) : strlen s = (cstr s).length := by
  induction s with
  | nil => rfl
  | cons c s ih =>
    by_cases h : c = 0
    · simp [strlen, cstr, h]
    · simp [strlen, cstr, h, ih]

theorem take_strlen (s : List Nat) : s.take (strlen s) = cstr s := by
  induction s with
  | nil => rfl
  | cons c s ih =>
    by_cases h : c = 0
    · simp [strlen, cstr, h]
    · simp [strlen, cstr, h, ih]

theorem min_strlen_append (a b : List Nat) :
    min (strlen (a ++ b)) a.length = strlen a := by
  induction a with
  | nil => simp [strlen]
  | cons c a ih =>
    by_cases h : c = 0
    · simp [strlen, h]
    · simp only [List.cons_append, strlen, if_neg h, List.length_cons, List.append_eq] at ih ⊢
      omega

theorem strlen_append_zero (a b : List Nat) : strlen (a ++ 0 :: b) = strlen a := by
  induction a with
  | nil => simp [strlen]
  | cons c a ih =>
    by_cases hc : c = 0
    · simp [strlen, hc]
    · simpa [strlen, hc] using ih

theorem strlen_le_length (a : List Nat) : strlen a ≤ a.length := by
  rw [← min_strlen_append a []]
  exact Nat.min_le_right _ _

theorem xmlencode_full (fp s : List Nat) :
    xmlencode fp s (strlen s) = fp ++ escapeAll (cstr s) := by
  rw [xmlencode_eq, Nat.min_self, take_strlen]

theorem htmlDecodeFrom_escapeImage (c : Nat) (r : List Nat) :
    htmlDecodeFrom 0 (escapeImage c ++ r) = c :: htmlDecodeFrom 0 r := by
  unfold escapeImage
  split_ifs with h1 h2 h3 h4 h5
  · subst h1
    simp [htmlDecodeFrom, decodeRef, bytes_lt]
  · subst h2
    simp [htmlDecodeFrom, decodeRef, bytes_lt, bytes_gt]
  · subst h3
    simp [htmlDecodeFrom, decodeRef, bytes_lt, bytes_gt, bytes_apos]
  · subst h4
    simp [htmlDecodeFrom, decodeRef, bytes_lt, bytes_gt, bytes_apos, bytes_amp]
  · subst h5
    simp [htmlDecodeFrom, decodeRef, bytes_lt, bytes_gt, bytes_apos, bytes_amp, bytes_quot]
  · have h : ¬ 38 = c := fun e => h4 e.symm
    simp [htmlDecodeFrom, decodeRef, bytes_lt, bytes_gt, bytes_apos, bytes_amp, bytes_quot, h]

theorem htmlDecode_escapeAll (t : List Nat) : htmlDecode (escapeAll t) = t := by
  unfold htmlDecode
  induction t with
  | nil => simp [escapeAll_nil, htmlDecodeFrom]
  | cons c t ih => rw [escapeAll_cons, htmlDecodeFrom_escapeImage, ih]

/-- A byte sequence without '&' that is followed by an '&' lies wholly before it. -/
theorem split_at_ampersand (l : List Nat) (hl : 38 ∉ l) :
    ∀ (pre post R : List Nat), pre ++ 38 :: post = l ++ R →
      ∃ p, pre = l ++ p ∧ p ++ 38 :: post = R := by
  induction l with
  | nil => intro pre post R h; exact ⟨pre, rfl, by simpa using h⟩
  | cons a l ih =>
    intro pre post R h
    have ha : a ≠ 38 := fun e => hl (by simp [e])
    have hl1 : 38 ∉ l := fun e => hl (by simp [e])
    cases pre with
    | nil =>
      simp only [List.nil_append, List.cons_append, List.cons.injEq] at h
      exact absurd h.1.symm ha
    | cons x pre =>
      simp only [List.cons_append, List.cons.injEq] at h
      obtain ⟨p, hp, hR⟩ := ih hl1 pre post R h.2
      exact ⟨p, by rw [h.1, hp]; rfl, hR⟩

/-- The image of a byte is a character reference, or the byte itself when it is
none of the five characters. -/
theorem escapeImage_cases (c : Nat) :
    (escapeImage c ∈ references) ∨
      (escapeImage c = [c] ∧ c ≠ 60 ∧ c ≠ 62 ∧ c ≠ 39 ∧ c ≠ 38 ∧ c ≠ 34) := by
  unfold escapeImage references
  split_ifs <;> simp [*]

theorem reference_shape (e : List Nat) (he : e ∈ references) :
    ∃ t, e = 38 :: t ∧ 38 ∉ t ∧ 60 ∉ e ∧ 62 ∉ e ∧ 39 ∉ e ∧ 34 ∉ e := by
  simp only [references, bytes_lt, bytes_gt, bytes_apos, bytes_amp, bytes_quot,
    List.mem_cons, List.mem_singleton, List.not_mem_nil, or_false] at he
  rcases he with h | h | h | h | h <;> subst h <;> exact ⟨_, rfl, by decide⟩

theorem escapeAll_ampersand (t : List Nat) :
    ∀ pre post, escapeAll t = pre ++ 38 :: post → ∃ e ∈ references, e <+: 38 :: post := by
  induction t with
  | nil => intro pre post h; simp [escapeAll_nil] at h
  | cons c t ih =>
    intro pre post h
    rw [escapeAll_cons] at h
    rcases escapeImage_cases c with he | ⟨he, -, -, -, hc, -⟩
    · obtain ⟨u, hu, hu38, -⟩ := reference_shape _ he
      cases pre with
      | nil =>
        refine ⟨escapeImage c, he, ?_⟩
        rw [List.nil_append] at h
        exact ⟨escapeAll t, h⟩
      | cons x pre =>
        rw [hu] at h
        simp only [List.cons_append, List.cons.injEq] at h
        obtain ⟨p, -, hp⟩ := split_at_ampersand u hu38 pre post (escapeAll t) h.2.symm
        exact ih p post hp.symm
    · rw [he] at h
      have h38 : 38 ∉ [c] := by simpa using fun e => hc e.symm
      obtain ⟨p, -, hp⟩ := split_at_ampersand [c] h38 pre post (escapeAll t) h.symm
      exact ih p post hp.symm

theorem escapeAll_no_special (t : List Nat) (x : Nat)
    (hx : x = 60 ∨ x = 62 ∨ x = 39 ∨ x = 34) : x ∉ escapeAll t := by
  induction t with
  | nil => simp [escapeAll_nil]
  | cons c t ih =>
    rw [escapeAll_cons, List.mem_append, not_or]
    refine ⟨?_, ih⟩
    rcases escapeImage_cases c with he | ⟨he, h60, h62, h39, -, h34⟩
    · obtain ⟨u, -, -, h1, h2, h3, h4⟩ := reference_shape _ he
      rcases hx with h | h | h | h <;> subst h <;> assumption
    · rw [he, List.mem_singleton]
      rcases hx with h | h | h | h <;> subst h <;> intro e <;> simp_all

theorem strrchrLoop_not_mem (c : Nat) (s : List Nat) (hs : c ∉ s) :
    ∀ (i : Nat) (last : Option Nat), strrchrLoop c s i last = last := by
  induction s with
  | nil => intro i last; rfl
  | cons x s ih =>
    intro i last
    have hx : x ≠ c := fun e => hs (by simp [e])
    have hs1 : c ∉ s := fun e => hs (by simp [e])
    simp [strrchrLoop, hx, ih hs1]

theorem strrchrLoop_last (c : Nat) (a b : List Nat) (hb : c ∉ b) :
    ∀ (i : Nat) (last : Option Nat),
      strrchrLoop c (a ++ c :: b) i last = some (i + a.length) := by
  induction a with
  | nil => intro i last; simp [strrchrLoop, strrchrLoop_not_mem c b hb]
  | cons x a ih =>
    intro i last
    rw [List.cons_append, strrchrLoop, ih, List.length_cons]
    congr 1
    omega

theorem strrchr_last (c : Nat) (a b : List Nat) (hb : c ∉ b) :
    strrchr (a ++ c :: b) c = some a.length := by
  unfold strrchr
  rw [strrchrLoop_last c a b hb]
  simp

theorem strrchr_not_mem (c : Nat) (s : List Nat) (hs : c ∉ s) : strrchr s c = none :=
  strrchrLoop_not_mem c s hs 0 none

theorem exists_last_occurrence (c : Nat) (s : List Nat) (hs : c ∈ s) :
    ∃ a b, s = a ++ c :: b ∧ c ∉ b := by
  induction s with
  | nil => simp at hs
  | cons x s ih =>
    by_cases h : c ∈ s
    · obtain ⟨a, b, hab, hb⟩ := ih h
      exact ⟨x :: a, b, by rw [hab]; rfl, hb⟩
    · have hx : c = x := by
        rcases List.mem_cons.mp hs with e | e
        · exact e
        · exact absurd e h
      exact ⟨[], s, by rw [hx]; rfl, h⟩

theorem strippedName_eq (n : List Nat) :
    strippedName n = if bytes ".git" <:+ n then n.take (n.length - 4) else n := by
  unfold strippedName
  by_cases hsuf : bytes ".git" <:+ n
  · rw [if_pos hsuf]
    obtain ⟨t, ht⟩ := hsuf
    have hn : n = t ++ 46 :: [103, 105, 116] := by rw [← ht, bytes_dotgit]
    have h46 : 46 ∉ [103, 105, 116] := by decide
    rw [hn, strrchr_last 46 t _ h46]
    simp [bytes_dotgit]
  · rw [if_neg hsuf]
    by_cases h : 46 ∈ n
    · obtain ⟨a, b, hab, hb⟩ := exists_last_occurrence 46 n h
      rw [hab, strrchr_last 46 a b hb]
      have hne : ¬ (a ++ 46 :: b).drop a.length = bytes ".git" := by
        intro e
        apply hsuf
        rw [hab]
        refine ⟨a, ?_⟩
        rw [← e]
        simp
      simp only [hne, if_false]
    · rw [strrchr_not_mem 46 n h]

theorem pathSep_eq (P : List Nat) :
    pathSep P = if P ≠ [] ∧ ¬ (bytes "/") <:+ P then bytes "/" else [] := by
  unfold pathSep
  have h : P.getLast? ≠ some 47 ↔ ¬ (bytes "/") <:+ P := by
    rw [bytes_slash, not_iff_not]
    constructor
    · intro h
      obtain ⟨hne, hl⟩ := List.getLast?_eq_some_iff.mp h
      exact ⟨hne, hl.symm⟩
    · rintro ⟨t, ht⟩
      rw [← ht]
      simp
  simp only [h]

theorem joinpath_eq (bufsiz : Nat) (P F : List Nat) :
    joinpath bufsiz P F =
      if INT_MAX < (joined P F).length ∨ bufsiz ≤ (joined P F).length then none
      else some (joined P F) := by
  unfold joinpath snprintf3 joined
  rw [pathSep_eq]
  generalize (if P ≠ [] ∧ ¬ (bytes "/") <:+ P then bytes "/" else []) = sep
  by_cases hi : (P ++ sep ++ F).length ≤ INT_MAX
  · simp only [if_pos hi, Int.toNat_ofNat, ge_iff_le]
    have hneg : ¬ ((P ++ sep ++ F).length : Int) < 0 := by omega
    simp only [hneg, false_or]
    by_cases h : bufsiz ≤ (P ++ sep ++ F).length
    · rw [if_pos h, if_pos (Or.inr h)]
    · rw [if_neg h, if_neg (by omega), List.take_of_length_le (by omega)]
  · simp only [if_neg hi]
    rw [if_pos (Or.inl (by decide)), if_pos (Or.inl (by omega))]

/-! ## Facts about the loop of `main` -/

theorem xmlencode_append (fp s : List Nat) (len : Nat) :
    xmlencode fp s len = fp ++ xmlencode [] s len := by
  rw [xmlencode_eq, xmlencode_eq, List.nil_append]

theorem printtimeshort_eq (fp : List Nat) (w : GitTime) :
    printtimeshort fp w = fp ++ timeText w.time := by
  unfold printtimeshort timeText
  cases gmtime w.time <;> simp

theorem fgetsLoop_eq (n : Nat) (c : List Nat) : fgetsLoop n c = firstLine n c := by
  unfold firstLine
  induction n generalizing c with
  | zero => simp [fgetsLoop]
  | succ n ih =>
    cases c with
    | nil => simp [fgetsLoop]
    | cons x r =>
      by_cases hx : x = 10
      · simp [fgetsLoop, hx]
      · simp [fgetsLoop, hx, ih r]

theorem fgets_eq (c : List Nat) :
    (match fgets 255 c with
      | none => []
      | some line => line) = firstLine 254 c := by
  cases c with
  | nil => simp [fgets, firstLine]
  | cons x r => simp [fgets, fgetsLoop_eq]

theorem writelog_eq (env : Env) (repodir name description fp : List Nat)
    (author : Option GitTime) (h : env.head repodir = some author) :
    writelog env repodir name description fp =
      (0, fp ++ rowText (strippedName name) description (timeCell author)) := by
  unfold writelog
  rw [h]
  simp only [rowText]
  cases author with
  | none =>
    simp only [timeCell]
    rw [xmlencode_append _ description, xmlencode_append _ (strippedName name),
      xmlencode_append (fp ++ _) (strippedName name)]
    simp [List.append_assoc]
  | some w =>
    simp only [timeCell]
    rw [printtimeshort_eq, xmlencode_append _ description,
      xmlencode_append _ (strippedName name), xmlencode_append (fp ++ _) (strippedName name)]
    simp [List.append_assoc]

theorem writelog_none (env : Env) (repodir name description fp : List Nat)
    (h : env.head repodir = none) :
    writelog env repodir name description fp = (-1, fp) := by
  unfold writelog
  rw [h]

theorem joined_length (P F : List Nat) :
    (joined P F).length = (joined P []).length + F.length := by
  unfold joined
  simp only [List.length_append, List.length_nil]
  omega

theorem joinpath_of_fits (env : Env) (P F : List Nat) (h : Fits env P)
    (hF : F.length ≤ 16) : joinpath env.PATH_MAX P F = some (joined P F) := by
  rw [joinpath_eq]
  unfold Fits at h
  rw [joined_length] at h
  have h16 : (bytes ".git/description").length = 16 := by decide
  rw [h16] at h
  have hmax := env.PATH_MAX_int
  rw [joined_length P F, if_neg (by omega)]

theorem readDescription_of_fits (env : Env) (P : List Nat) (h : Fits env P) :
    readDescription env P = some (resolvedDescription env P) := by
  unfold readDescription resolvedDescription
  rw [joinpath_of_fits env P _ h (by decide), joinpath_of_fits env P _ h (by decide)]
  simp only
  cases h1 : env.fopen (joined P (bytes "description")) with
  | some c =>
    simp only
    rw [← fgets_eq c]
    cases fgets 255 c <;> rfl
  | none =>
    simp only
    cases h2 : env.fopen (joined P (bytes ".git/description")) with
    | some c =>
      simp only
      rw [← fgets_eq c]
      cases fgets 255 c <;> rfl
    | none => rfl

theorem readOwner_of_fits (env : Env) (P : List Nat) (h : Fits env P) :
    ∃ owner, readOwner env P = some owner := by
  unfold readOwner
  rw [joinpath_of_fits env P _ h (by decide), joinpath_of_fits env P _ h (by decide)]
  simp only
  cases env.fopen (joined P (bytes "owner")) with
  | some c => exact ⟨_, rfl⟩
  | none =>
    simp only
    cases env.fopen (joined P (bytes ".git/owner")) with
    | some c => exact ⟨_, rfl⟩
    | none => exact ⟨_, rfl⟩

theorem iteration_ok (env : Env) (st : State) (P : List Nat)
    (hr : (env.realpath P).isSome)
    (hf : env.repository_open P = true → Fits env P) :
    ∃ st1, iteration env st P = Step.next st1
      ∧ st1.out = st.out ++ rowOf env P
      ∧ st1.ret = (if env.repository_open P = false then 1 else st.ret)
      ∧ (env.repository_open P = true → st1.description = resolvedDescription env P) := by
  obtain ⟨repodirabs, habs⟩ := Option.isSome_iff_exists.mp hr
  unfold iteration
  rw [habs]
  cases ho : env.repository_open P with
  | false =>
    refine ⟨{ st with ret := 1 }, by simp, ?_, by simp, by simp⟩
    simp [rowOf, ho]
  | true =>
    have hfit := hf ho
    obtain ⟨owner, hown⟩ := readOwner_of_fits env P hfit
    simp only [readDescription_of_fits env P hfit, hown]
    refine ⟨_, rfl, ?_, by simp, by simp⟩
    cases hh : env.head P with
    | none => simp [writelog_none _ _ _ _ _ hh, rowOf, ho, hh]
    | some author => simp [writelog_eq _ _ _ _ _ author hh, rowOf, ho, hh, displayName, habs]

theorem mainLoop_ok (env : Env) (args : List (List Nat)) :
    ∀ (st : State), (∀ a ∈ args, (env.realpath a).isSome) →
      (∀ a ∈ args, env.repository_open a = true → Fits env a) →
      ∃ st1, mainLoop env st args = Step.next st1
        ∧ st1.out = st.out ++ args.flatMap (rowOf env)
        ∧ st1.ret = (if ∃ a ∈ args, env.repository_open a = false then 1 else st.ret) := by
  induction args with
  | nil => intro st _ _; exact ⟨st, rfl, by simp, by simp⟩
  | cons a rest ih =>
    intro st hr hf
    obtain ⟨st1, h1, hout1, hret1, -⟩ :=
      iteration_ok env st a (hr a (by simp)) (hf a (by simp))
    obtain ⟨st2, h2, hout2, hret2⟩ :=
      ih st1 (fun b hb => hr b (by simp [hb])) (fun b hb => hf b (by simp [hb]))
    refine ⟨st2, ?_, ?_, ?_⟩
    · simp only [mainLoop, h1, h2]
    · rw [hout2, hout1, List.flatMap_cons, List.append_assoc]
    · rw [hret2, hret1]
      by_cases ha : env.repository_open a = false
      · simp [ha]
      · simp [ha]

theorem main_ok (env : Env) (args : List (List Nat)) (hne : args ≠ [])
    (hr : ∀ a ∈ args, (env.realpath a).isSome)
    (hf : ∀ a ∈ args, env.repository_open a = true → Fits env a) :
    main env args =
      Outcome.returned (if ∃ a ∈ args, env.repository_open a = false then 1 else 0)
        (headerText ++ args.flatMap (rowOf env) ++ footerText) := by
  obtain ⟨st1, h1, hout, hret⟩ := mainLoop_ok env args initialState hr hf
  unfold main
  rw [if_neg hne, h1]
  simp only [writefooter, hout, hret]
  rfl

theorem mainLoop_append (env : Env) (pre rest : List (List Nat)) :
    ∀ (st : State), mainLoop env st (pre ++ rest) =
      match mainLoop env st pre with
      | Step.fatal out => Step.fatal out
      | Step.next st1 => mainLoop env st1 rest := by
  induction pre with
  | nil => intro st; rfl
  | cons a pre ih =>
    intro st
    simp only [List.cons_append, mainLoop]
    cases iteration env st a with
    | fatal out => rfl
    | next st1 => exact ih st1

theorem joined_length_ge (P F : List Nat) : P.length + F.length ≤ (joined P F).length := by
  unfold joined
  simp only [List.length_append]
  omega

theorem joined_length_le (P F : List Nat) : (joined P F).length ≤ P.length + 1 + F.length := by
  unfold joined
  have h1 : (bytes "/").length = 1 := by decide
  simp only [List.length_append]
  split_ifs
  · omega
  · simp

theorem joinpath_of_int_overflow (bufsiz : Nat) (P F : List Nat)
    (h : INT_MAX < P.length + F.length) : joinpath bufsiz P F = none := by
  have hge := joined_length_ge P F
  rw [joinpath_eq, if_pos (Or.inl (by omega))]

theorem iteration_fatal (env : Env) (st : State) (P : List Nat)
    (hr : (env.realpath P).isSome) (ho : env.repository_open P = true)
    (hlen : env.PATH_MAX ≤ P.length + 11) : iteration env st P = Step.fatal st.out := by
  obtain ⟨repodirabs, habs⟩ := Option.isSome_iff_exists.mp hr
  have hj : joinpath env.PATH_MAX P (bytes "description") = none := by
    have h := joined_length_ge P (bytes "description")
    have h11 : (bytes "description").length = 11 := by decide
    rw [joinpath_eq, if_pos (Or.inr (by omega))]
  unfold iteration
  rw [habs]
  simp [ho, readDescription, hj]

theorem main_fatal (env : Env) (pre post : List (List Nat)) (P : List Nat)
    (hr : ∀ a ∈ pre, (env.realpath a).isSome)
    (hf : ∀ a ∈ pre, env.repository_open a = true → Fits env a)
    (hrP : (env.realpath P).isSome) (hoP : env.repository_open P = true)
    (hlen : env.PATH_MAX ≤ P.length + 11) :
    main env (pre ++ P :: post) = Outcome.exited 1 (headerText ++ pre.flatMap (rowOf env)) := by
  obtain ⟨st1, h1, hout, -⟩ := mainLoop_ok env pre initialState hr hf
  unfold main
  rw [if_neg (by simp), mainLoop_append, h1]
  simp only [mainLoop, iteration_fatal env st1 P hrP hoP hlen, hout]
  rfl

theorem dotSlash_length (n : Nat) : (dotSlash n).length = 2 * n := by
  induction n with
  | zero => rfl
  | succ n ih => simp only [dotSlash, List.length_cons, ih]; omega

theorem longPath_length : longPath.length = 4093 := by
  unfold longPath
  have h1 : (bytes "/srv/git/").length = 9 := by decide
  have h2 : (bytes "long").length = 4 := by decide
  simp only [List.length_append, dotSlash_length, h1, h2]

theorem longTools_length : longTools.length = 4094 := by
  unfold longTools
  have h1 : (bytes "/srv/git/").length = 9 := by decide
  have h2 : (bytes "tools").length = 5 := by decide
  simp only [List.length_append, dotSlash_length, h1, h2]

theorem ne_of_length_ne (p q : List Nat) (h : p.length ≠ q.length) : p ≠ q :=
  fun e => h (congrArg List.length e)

theorem longPath_ne (p : List Nat) (hp : p.length ≠ 4093) : longPath ≠ p :=
  ne_of_length_ne _ _ (by rw [longPath_length]; exact fun e => hp e.symm)

theorem longTools_ne (p : List Nat) (hp : p.length ≠ 4094) : longTools ≠ p :=
  ne_of_length_ne _ _ (by rw [longTools_length]; exact fun e => hp e.symm)

theorem longPath_realpath : (exampleEnv.realpath longPath).isSome := by
  simp [exampleEnv]

theorem longTools_realpath : (exampleEnv.realpath longTools).isSome := by
  simp only [exampleEnv]
  rw [if_neg (longTools_ne _ (by rw [longPath_length]; decide))]
  simp

theorem longPath_open : exampleEnv.repository_open longPath = true := by
  simp only [exampleEnv, decide_eq_true_eq]
  exact longPath_ne _ (by decide)

theorem longTools_open : exampleEnv.repository_open longTools = true := by
  simp only [exampleEnv, decide_eq_true_eq]
  exact longTools_ne _ (by decide)

theorem longPath_head : exampleEnv.head longPath = some (some ⟨1672574400, 120⟩) := by
  simp only [exampleEnv]
  rw [if_neg, if_neg (longPath_ne _ (by decide)), if_neg (longPath_ne _ (by decide)),
    if_neg (longPath_ne _ (by decide))]
  rintro (h | h)
  · exact longPath_ne _ (by decide) h
  · exact longPath_ne _ (by rw [longTools_length]; decide) h

theorem longTools_head : exampleEnv.head longTools = none := by
  simp [exampleEnv]

theorem longPath_too_long : exampleEnv.PATH_MAX ≤ longPath.length + 11 := by
  rw [longPath_length]
  decide

theorem longTools_too_long : exampleEnv.PATH_MAX ≤ longTools.length + 11 := by
  rw [longTools_length]
  decide

theorem fopen_long_path (p : List Nat) (hp : 100 ≤ p.length) : exampleEnv.fopen p = none := by
  simp only [exampleEnv]
  rw [if_neg, if_neg, if_neg]
  · exact ne_of_length_ne _ _ (by
      have h : (bytes "/srv/git/wide/description").length = 25 := by decide
      omega)
  · exact ne_of_length_ne _ _ (by
      have h : (bytes "/srv/git/wiki/.git/description").length = 30 := by decide
      omega)
  · exact ne_of_length_ne _ _ (by
      have h : (bytes "/srv/git/blog.git/description").length = 29 := by decide
      omega)

theorem fopen_longPath (F : List Nat) : exampleEnv.fopen (joined longPath F) = none := by
  apply fopen_long_path
  have h := joined_length_ge longPath F
  rw [longPath_length] at h
  omega

theorem rowText_ne_nil (n d T : List Nat) : rowText n d T ≠ [] := by
  unfold rowText
  have h : bytes "<tr><td><a href=\"" = 60 :: (bytes "tr><td><a href=\"") := by decide
  rw [h]
  simp

/-! ## Facts about the calendar -/

theorem civil_cycles (zz era doe c r q s y1 doy : Int)
    (hera : era = zz / 146097) (hdoe : doe = zz % 146097)
    (hc : c = if doe / 36524 = 4 then 3 else doe / 36524)
    (hr : r = doe - c * 36524) (hq : q = r / 1461) (hs : s = r - q * 1461)
    (hy1 : y1 = if s / 365 = 4 then 3 else s / 365) (hdoy : doy = s - y1 * 365) :
    zz = 146097 * era + 36524 * c + 1461 * q + 365 * y1 + doy
    ∧ 0 ≤ c ∧ c ≤ 3 ∧ 0 ≤ q ∧ q ≤ 24 ∧ 0 ≤ y1 ∧ y1 ≤ 3 ∧ 0 ≤ doy ∧ doy ≤ 365
    ∧ (doy = 365 → y1 = 3) ∧ (doy = 365 → q = 24 → c = 3) := by
  split_ifs at hc hy1 <;> omega

theorem civil_month_day (doy mp d : Int) (h0 : 0 ≤ doy) (h1 : doy ≤ 365)
    (hmp : mp = (5 * doy + 2) / 153) (hd : d = doy - (153 * mp + 2) / 5 + 1) :
    0 ≤ mp ∧ mp ≤ 11 ∧ 1 ≤ d ∧ d ≤ 31 := by
  omega

theorem civil_date (z era c q y1 doy mp d m Y : Int)
    (hz : z + 719468 = 146097 * era + 36524 * c + 1461 * q + 365 * y1 + doy)
    (hc0 : 0 ≤ c) (hc3 : c ≤ 3) (hq0 : 0 ≤ q) (hq24 : q ≤ 24) (hy0 : 0 ≤ y1) (hy3 : y1 ≤ 3)
    (hd0 : 0 ≤ doy) (hd365 : doy ≤ 365) (hl1 : doy = 365 → y1 = 3)
    (hl2 : doy = 365 → q = 24 → c = 3)
    (hmp : mp = (5 * doy + 2) / 153) (hd : d = doy - (153 * mp + 2) / 5 + 1)
    (hm : m = if mp < 10 then mp + 3 else mp - 9)
    (hY : Y = if m ≤ 2 then era * 400 + (c * 100 + q * 4 + y1) + 1
      else era * 400 + (c * 100 + q * 4 + y1)) :
    1 ≤ m ∧ m ≤ 12 ∧ 1 ≤ d ∧ d ≤ monthLength Y m ∧ daysFromCivil Y m d = z := by
  obtain ⟨hmp0, hmp11, hd1, -⟩ := civil_month_day doy mp d hd0 hd365 hmp hd
  unfold monthLength daysFromCivil daysBeforeMonth isLeapYear
  interval_cases mp <;> norm_num at hm <;> subst hm <;> norm_num at hY <;> subst hY <;>
    refine ⟨by omega, by omega, hd1, ?_, ?_⟩ <;> norm_num <;> (try split_ifs) <;> omega

theorem civil_year_range (z era c q y1 doy mp m Y : Int)
    (hz : z + 719468 = 146097 * era + 36524 * c + 1461 * q + 365 * y1 + doy)
    (hc0 : 0 ≤ c) (hc3 : c ≤ 3) (hq0 : 0 ≤ q) (hq24 : q ≤ 24) (hy0 : 0 ≤ y1) (hy3 : y1 ≤ 3)
    (hd0 : 0 ≤ doy) (hd365 : doy ≤ 365)
    (hmp : mp = (5 * doy + 2) / 153)
    (hm : m = if mp < 10 then mp + 3 else mp - 9)
    (hY : Y = if m ≤ 2 then era * 400 + (c * 100 + q * 4 + y1) + 1
      else era * 400 + (c * 100 + q * 4 + y1))
    (hlo : -354285 ≤ z) (hhi : z ≤ 2932896) : 1000 ≤ Y ∧ Y ≤ 9999 := by
  split_ifs at hm hY <;> omega

/-- The date `civilFromDays` computes is a date of the Gregorian calendar, and
it is the date of the day `z`; for the days of the years 1000 to 9999 it lies
in these years. -/
theorem civilFromDays_spec (z : Int) :
    1 ≤ (civilFromDays z).2.1 ∧ (civilFromDays z).2.1 ≤ 12
    ∧ 1 ≤ (civilFromDays z).2.2
    ∧ (civilFromDays z).2.2 ≤ monthLength (civilFromDays z).1 (civilFromDays z).2.1
    ∧ daysFromCivil (civilFromDays z).1 (civilFromDays z).2.1 (civilFromDays z).2.2 = z
    ∧ (-354285 ≤ z → z ≤ 2932896 → 1000 ≤ (civilFromDays z).1 ∧ (civilFromDays z).1 ≤ 9999) := by
  obtain ⟨h1, h2, h3, h4, h5, h6, h7, h8, h9, h10, h11⟩ :=
    civil_cycles (z + 719468) _ _ _ _ _ _ _ _ rfl rfl rfl rfl rfl rfl rfl rfl
  have hz : z + 719468 = 146097 * ((z + 719468) / 146097) + 36524 * _ + 1461 * _ + 365 * _ + _ :=
    h1
  obtain ⟨a1, a2, a3, a4, a5⟩ := civil_date z _ _ _ _ _ _ _ _ _ hz h2 h3 h4 h5 h6 h7 h8 h9 h10 h11
    rfl rfl rfl rfl
  refine ⟨a1, a2, a3, a4, a5, fun hlo hhi => ?_⟩
  exact civil_year_range z _ _ _ _ _ _ _ _ hz h2 h3 h4 h5 h6 h7 h8 h9 rfl rfl rfl hlo hhi

theorem digitChar_toNat : ∀ d, d < 10 → (Nat.digitChar d).toNat = 48 + d := by decide

theorem decimal_four_digits (n : Nat) (h1 : 1000 ≤ n) (h2 : n ≤ 9999) :
    decimal n = [48 + n / 1000, 48 + n / 100 % 10, 48 + n / 10 % 10, 48 + n % 10] := by
  obtain ⟨k, rfl⟩ : ∃ k, n = k + 3 := ⟨n - 3, by omega⟩
  have e1 : (k + 3) / 10 ≠ 0 := by omega
  have e2 : (k + 3) / 10 / 10 ≠ 0 := by omega
  have e3 : (k + 3) / 10 / 10 / 10 ≠ 0 := by omega
  have e4 : (k + 3) / 10 / 10 / 10 / 10 = 0 := by omega
  simp only [decimal, Nat.toDigits, Nat.toDigitsCore, e1, e2, e3, e4, if_false, if_true,
    List.map_cons, List.map_nil]
  rw [digitChar_toNat _ (by omega), digitChar_toNat _ (by omega), digitChar_toNat _ (by omega),
    digitChar_toNat _ (by omega)]
  have f1 : (k + 3) / 10 / 10 / 10 % 10 = (k + 3) / 1000 := by omega
  have f2 : (k + 3) / 10 / 10 % 10 = (k + 3) / 100 % 10 := by omega
  rw [f1, f2]

theorem twoDigits_cast (n : Nat) : twoDigits (n : Int) = [48 + n / 10, 48 + n % 10] := by
  have h1 : ((n : Int) / 10).toNat = n / 10 := by omega
  have h2 : ((n : Int) % 10).toNat = n % 10 := by omega
  unfold twoDigits
  rw [h1, h2]

/-- For an author time in the years 1000 to 9999 the text of the last-commit
cell is `YYYY-MM-DD HH:MM` for the calendar date, hour and minute of that time
in UTC. -/
theorem timeText_spec (t : Int) (hlo : -30610224000 ≤ t) (hhi : t < 253402300800) :
    ∃ Y M D h m : Nat,
      1000 ≤ Y ∧ Y ≤ 9999 ∧ 1 ≤ M ∧ M ≤ 12 ∧ 1 ≤ D ∧ (D : Int) ≤ monthLength Y M
      ∧ h ≤ 23 ∧ m ≤ 59
      ∧ daysFromCivil Y M D * 86400 + h * 3600 + m * 60 ≤ t
      ∧ t < daysFromCivil Y M D * 86400 + h * 3600 + m * 60 + 60
      ∧ timeText t = shortTimeText Y M D h m := by
  obtain ⟨a1, a2, a3, a4, a5, a6⟩ := civilFromDays_spec (t / 86400)
  obtain ⟨a7, a8⟩ := a6 (by omega) (by omega)
  generalize hY : (civilFromDays (t / 86400)).1 = Yi at a4 a5 a7 a8
  generalize hM : (civilFromDays (t / 86400)).2.1 = Mi at a1 a2 a4 a5
  generalize hD : (civilFromDays (t / 86400)).2.2 = Di at a3 a4 a5
  obtain ⟨Y, rfl⟩ := Int.eq_ofNat_of_zero_le (show 0 ≤ Yi by omega)
  obtain ⟨M, rfl⟩ := Int.eq_ofNat_of_zero_le (show 0 ≤ Mi by omega)
  obtain ⟨D, rfl⟩ := Int.eq_ofNat_of_zero_le (show 0 ≤ Di by omega)
  obtain ⟨h, hh⟩ := Int.eq_ofNat_of_zero_le (show 0 ≤ t % 86400 / 3600 by omega)
  obtain ⟨m, hm⟩ := Int.eq_ofNat_of_zero_le (show 0 ≤ t % 86400 % 3600 / 60 by omega)
  refine ⟨Y, M, D, h, m, by omega, by omega, by omega, by omega, by omega, a4, by omega,
    by omega, by omega, by omega, ?_⟩
  have hn : ¬ ((Y : Int) < 0) := by omega
  have hdec := decimal_four_digits Y (by omega) (by omega)
  have hg : gmtime t = some ⟨(Y : Int), (M : Int), (D : Int), (h : Int), (m : Int)⟩ := by
    unfold gmtime
    simp only [hY, hM, hD, hh, hm]
    rw [if_pos (by omega)]
  have hw : intWrap (Y : Int) = (Y : Int) := by
    unfold intWrap
    omega
  unfold timeText
  rw [hg]
  simp only [strftimeShort, hw, twoDigits_cast, Int.toNat_ofNat]
  simp only [hn, if_false, hdec, shortTimeText, List.cons_append, List.nil_append]

/-! ## The embedding on concrete inputs -/

theorem xmlencode_examples :
    xmlencode [] (bytes "a<b") 10 = bytes "a&lt;b"
    ∧ xmlencode [] (bytes "a<b" ++ [0] ++ bytes "zz") 10 = bytes "a&lt;b"
    ∧ xmlencode [] (bytes "a<b") 2 = bytes "a&lt;"
    ∧ xmlencode (bytes "<h1>") (bytes "R&D \"x\"") 8 = bytes "<h1>R&amp;D &quot;x&quot;" := by
  decide

theorem joinpath_examples :
    joinpath 4096 (bytes "/srv/git/foo") (bytes "description") =
      some (bytes "/srv/git/foo/description")
    ∧ joinpath 4096 (bytes "/srv/git/foo/") (bytes "description") =
      some (bytes "/srv/git/foo/description")
    ∧ joinpath 4096 (bytes "") (bytes "description") = some (bytes "description")
    ∧ joinpath 12 (bytes "") (bytes "description") = some (bytes "description")
    ∧ joinpath 11 (bytes "") (bytes "description") = none := by
  decide

theorem name_examples :
    baseName (bytes "/srv/git/foo.git") = bytes "foo.git"
    ∧ baseName (bytes "/") = bytes ""
    ∧ strippedName (bytes "foo.gitx") = bytes "foo.gitx"
    ∧ strippedName (bytes "a.b.git") = bytes "a.b" := by
  decide

theorem fgets_examples :
    fgets 255 (bytes "My blog\nmore") = some (bytes "My blog\n")
    ∧ fgets 255 (bytes "My blog") = some (bytes "My blog")
    ∧ fgets 255 [] = none
    ∧ fgets 4 (bytes "My blog\n") = some (bytes "My ") := by
  decide

theorem printtimeshort_examples :
    printtimeshort [] ⟨1672574400, 60⟩ = bytes "2023-01-01 12:00"
    ∧ printtimeshort [] ⟨951782399, 0⟩ = bytes "2000-02-28 23:59"
    ∧ printtimeshort [] ⟨951868799, 0⟩ = bytes "2000-02-29 23:59"
    ∧ printtimeshort [] ⟨1709210096, -300⟩ = bytes "2024-02-29 12:34"
    ∧ printtimeshort [] ⟨-1, 0⟩ = bytes "1969-12-31 23:59"
    ∧ printtimeshort [] ⟨253402300800, 0⟩ = bytes "10000-01-01 00:00"
    ∧ printtimeshort [] ⟨-30610224001, 0⟩ = bytes "999-12-31 23:59"
    ∧ printtimeshort [] ⟨67767976233532800, 0⟩ = bytes "-2147483648-01-01 00:00"
    ∧ printtimeshort [] ⟨4611686018427387904, 0⟩ = [] := by
  decide

theorem htmlDecode_examples :
    htmlDecode (bytes "a&lt;b&amp;lt;&x&quot;") = bytes "a<b&lt;&x\""
    ∧ htmlDecode (bytes "&#39;&gt;") = bytes "\x27>" := by
  decide

/-! ## The claims -/

/-- C1: for every buffer `s` and maximum length `len`, `xmlencode(fp, s, len)`
appends to the stream exactly the images, in order, of the first
`min(strlen(s), len)` bytes of `s` ('<' gives "&lt;", '>' gives "&gt;", the
apostrophe gives "&#39;", '&' gives "&amp;", '"' gives "&quot;", any other byte
itself); the bytes after a NUL and the bytes at index `len` or later do not
change the output. -/
theorem C1_xmlencode_output (fp s : List Nat) (len : Nat) :
    xmlencode fp s len = fp ++ (s.take (min (strlen s) len)).flatMap escapeImage
    ∧ escapeImage 60 = bytes "&lt;" ∧ escapeImage 62 = bytes "&gt;"
    ∧ escapeImage 39 = bytes "&#39;" ∧ escapeImage 38 = bytes "&amp;"
    ∧ escapeImage 34 = bytes "&quot;"
    ∧ (∀ c, c = 60 ∨ c = 62 ∨ c = 39 ∨ c = 38 ∨ c = 34 ∨ escapeImage c = [c])
    ∧ (∀ b b1 : List Nat, xmlencode fp (s ++ 0 :: b) len = xmlencode fp (s ++ 0 :: b1) len)
    ∧ (∀ b b1 : List Nat, xmlencode fp (s ++ b) s.length = xmlencode fp (s ++ b1) s.length) := by
  refine ⟨xmlencode_eq fp s len, by decide, by decide, by decide, by decide, by decide,
    ?_, ?_, ?_⟩
  · intro c
    by_cases h1 : c = 60
    · exact Or.inl h1
    by_cases h2 : c = 62
    · exact Or.inr (Or.inl h2)
    by_cases h3 : c = 39
    · exact Or.inr (Or.inr (Or.inl h3))
    by_cases h4 : c = 38
    · exact Or.inr (Or.inr (Or.inr (Or.inl h4)))
    by_cases h5 : c = 34
    · exact Or.inr (Or.inr (Or.inr (Or.inr (Or.inl h5))))
    · exact Or.inr (Or.inr (Or.inr (Or.inr (Or.inr (by simp [escapeImage, *])))))
  · intro b b1
    rw [xmlencode_eq, xmlencode_eq, strlen_append_zero s b, strlen_append_zero s b1]
    have h1 : min (strlen s) len ≤ s.length :=
      Nat.le_trans (Nat.min_le_left _ _) (strlen_le_length s)
    rw [List.take_append_of_le_length h1, List.take_append_of_le_length h1]
  · intro b b1
    rw [xmlencode_eq, xmlencode_eq, min_strlen_append, min_strlen_append]
    have h1 : strlen s ≤ s.length := strlen_le_length s
    rw [List.take_append_of_le_length h1, List.take_append_of_le_length h1]

/-- C2: for every buffer `s` and maximum length `len`, entity decoding of what
`xmlencode(s, len)` writes gives back `s` cut to `min(strlen(s), len)` bytes,
also when `s` itself holds text that looks like a reference, as "&lt;" does. -/
theorem C2_decode_roundtrip (s : List Nat) (len : Nat) :
    htmlDecode (xmlencode [] s len) = s.take (min (strlen s) len)
    ∧ htmlDecode (xmlencode [] (bytes "&lt;") 4) = bytes "&lt;" := by
  have h : ∀ (s : List Nat) (len : Nat),
      htmlDecode (xmlencode [] s len) = s.take (min (strlen s) len) := by
    intro s len
    rw [xmlencode_eq, List.nil_append, htmlDecode_escapeAll]
  exact ⟨h s len, by decide⟩

/-- C3: for every buffer `s` and maximum length `len`, the output of `xmlencode`
holds no literal occurrence of the five characters: no '<', no '>', no
apostrophe and no '"' at all, and no '&' that stands for itself, since every
'&' in it is the first byte of one of the five references
`&lt; &gt; &#39; &amp; &quot;`. -/
theorem C3_output_escaped (s : List Nat) (len : Nat) :
    60 ∉ xmlencode [] s len ∧ 62 ∉ xmlencode [] s len
    ∧ 39 ∉ xmlencode [] s len ∧ 34 ∉ xmlencode [] s len
    ∧ ∀ pre post, xmlencode [] s len = pre ++ 38 :: post →
        ∃ e ∈ references, e <+: 38 :: post := by
  rw [xmlencode_eq, List.nil_append]
  exact ⟨escapeAll_no_special _ _ (by simp), escapeAll_no_special _ _ (by simp),
    escapeAll_no_special _ _ (by simp), escapeAll_no_special _ _ (by simp),
    escapeAll_ampersand _⟩

/-- C3 at the input "a&<" with maximum length 3: the output is
"a&amp;&lt;", and the '&' after "a&amp;" starts the reference "&lt;". -/
theorem C3_output_escaped_witness :
    xmlencode [] (bytes "a&<") 3 = bytes "a&amp;" ++ 38 :: bytes "lt;"
    ∧ ∃ e ∈ references, e <+: 38 :: bytes "lt;" :=
  ⟨by decide, (C3_output_escaped (bytes "a&<") 3).2.2.2.2 (bytes "a&amp;") (bytes "lt;") (by decide)⟩

/-- C4: for every directory name `n`, the display name computed in `writelog`
(`strrchr` on '.', then `strcmp` with ".git") is `n` without its last four
bytes when `n` ends with ".git", and `n` itself otherwise; one trailing ".git"
is removed: "foo.git" gives "foo", "foo.git.git" gives "foo.git", "foo" gives
"foo" and ".git" gives "". -/
theorem C4_display_name (n : List Nat) :
    strippedName n = (if bytes ".git" <:+ n then n.take (n.length - 4) else n)
    ∧ strippedName (bytes "foo.git") = bytes "foo"
    ∧ strippedName (bytes "foo.git.git") = bytes "foo.git"
    ∧ strippedName (bytes "foo") = bytes "foo"
    ∧ strippedName (bytes ".git") = bytes "" :=
  ⟨strippedName_eq n, by decide, by decide, by decide, by decide⟩

/-- C5, as the claim states it, fails: for a path of 2147483648 bytes and the
buffer size 2147483700 the joined string is shorter than the buffer, yet
`joinpath` fails fatally, because `snprintf` cannot report a length above
`INT_MAX` and returns a negative value. -/
theorem C5_counterexample :
    (joined (List.replicate 2147483648 97) []).length < 2147483700
    ∧ joinpath 2147483700 (List.replicate 2147483648 97) [] = none := by
  have hlen : (List.replicate 2147483648 97 : List Nat).length = 2147483648 :=
    List.length_replicate _ _
  constructor
  · apply Nat.lt_of_le_of_lt (joined_length_le _ _)
    rw [hlen]
    decide
  · apply joinpath_of_int_overflow
    rw [hlen]
    decide

/-- C5, amended: for every path `P`, file name `F` and buffer size `bufsiz`,
`joinpath` either fails fatally or leaves `buf` equal to `P ++ sep ++ F`, where
`sep` is "/" exactly when `P` is non-empty and does not end with '/', and is
empty otherwise; it fails fatally if and only if the length of `P ++ sep ++ F`
is at least `bufsiz` or larger than `INT_MAX`, so a truncated path is never
returned. -/
theorem C5_joinpath (bufsiz : Nat) (P F : List Nat) :
    (joinpath bufsiz P F = none ∨ joinpath bufsiz P F = some (joined P F))
    ∧ (joinpath bufsiz P F = none ↔
        (joined P F).length ≥ bufsiz ∨ (joined P F).length > INT_MAX)
    ∧ joined P F = P ++ (if P ≠ [] ∧ ¬ (bytes "/") <:+ P then bytes "/" else []) ++ F := by
  rw [joinpath_eq]
  refine ⟨?_, ?_, rfl⟩
  · by_cases hb : INT_MAX < (joined P F).length ∨ bufsiz ≤ (joined P F).length
    · exact Or.inl (if_pos hb)
    · exact Or.inr (if_neg hb)
  · by_cases hb : INT_MAX < (joined P F).length ∨ bufsiz ≤ (joined P F).length
    · rw [if_pos hb]
      simp only [true_iff]
      rcases hb with h | h
      · exact Or.inr h
      · exact Or.inl h
    · rw [if_neg hb]
      simp only [reduceCtorEq, false_iff]
      rintro (h | h)
      · exact hb (Or.inr h)
      · exact hb (Or.inl h)

/-- C6, as the claim states it, fails: the repository `/srv/git/notes` opens
and has no description file at either place, and the description the loop
resolves for it is the empty string, not the process default; the repository
`/srv/git/wide` has a readable top-level file whose first line has 300 bytes,
and the description is only its first 254 bytes; and `longPath` opens, but its
pass ends the process in `joinpath` and resolves no description. -/
theorem C6_counterexample :
    (exampleEnv.repository_open (bytes "/srv/git/notes") = true
      ∧ exampleEnv.fopen (joined (bytes "/srv/git/notes") (bytes "description")) = none
      ∧ exampleEnv.fopen (joined (bytes "/srv/git/notes") (bytes ".git/description")) = none
      ∧ ∃ st, iteration exampleEnv initialState (bytes "/srv/git/notes") = Step.next st
          ∧ st.description = [] ∧ st.description ≠ defaultDescription)
    ∧ (exampleEnv.repository_open (bytes "/srv/git/wide") = true
      ∧ exampleEnv.fopen (joined (bytes "/srv/git/wide") (bytes "description")) =
          some (List.replicate 300 120)
      ∧ ∃ st, iteration exampleEnv initialState (bytes "/srv/git/wide") = Step.next st
          ∧ st.description = List.replicate 254 120
          ∧ st.description ≠ List.replicate 300 120)
    ∧ (exampleEnv.repository_open longPath = true
      ∧ iteration exampleEnv initialState longPath = Step.fatal initialState.out) := by
  refine ⟨⟨by decide, by decide, by decide, ?_⟩, ⟨by decide, by decide, ?_⟩, longPath_open, ?_⟩
  · obtain ⟨st, h, -, -, hd⟩ := iteration_ok exampleEnv initialState (bytes "/srv/git/notes")
      (by decide) (by decide)
    have hd1 : st.description = [] := (hd (by decide)).trans (by decide)
    exact ⟨st, h, hd1, by rw [hd1]; decide⟩
  · obtain ⟨st, h, -, -, hd⟩ := iteration_ok exampleEnv initialState (bytes "/srv/git/wide")
      (by decide) (by decide)
    have hd1 : st.description = List.replicate 254 120 := (hd (by decide)).trans (by decide)
    exact ⟨st, h, hd1, by rw [hd1]; decide⟩
  · exact iteration_fatal exampleEnv initialState longPath longPath_realpath longPath_open
      longPath_too_long

/-- C6, amended: for every repository that resolves and opens and whose
candidate paths fit in the path buffer, the pass of the loop completes and the
description it resolves is the first line (at most 254 bytes) of the top-level
`description` file when that file is readable; otherwise the first line (at
most 254 bytes) of `.git/description` when that one is readable; and the empty
string when neither is readable. -/
theorem C6_description_fallback (env : Env) (st : State) (P : List Nat)
    (hr : (env.realpath P).isSome) (ho : env.repository_open P = true) (hf : Fits env P) :
    ∃ st1, iteration env st P = Step.next st1
      ∧ (∀ c, env.fopen (joined P (bytes "description")) = some c →
          st1.description = firstLine 254 c)
      ∧ (env.fopen (joined P (bytes "description")) = none →
          ∀ c, env.fopen (joined P (bytes ".git/description")) = some c →
            st1.description = firstLine 254 c)
      ∧ (env.fopen (joined P (bytes "description")) = none →
          env.fopen (joined P (bytes ".git/description")) = none →
            st1.description = []) := by
  obtain ⟨st1, h, -, -, hd⟩ := iteration_ok env st P hr (fun _ => hf)
  have hd1 := hd ho
  refine ⟨st1, h, ?_, ?_, ?_⟩
  · intro c hc
    rw [hd1, resolvedDescription, hc]
  · intro h1 c hc
    rw [hd1, resolvedDescription, h1, hc]
  · intro h1 h2
    rw [hd1, resolvedDescription, h1, h2]

/-- C6, amended, at the repository `/srv/git/wiki`, which has only
`.git/description`: the description resolved is the first line of that file. -/
theorem C6_description_fallback_witness :
    (exampleEnv.realpath (bytes "/srv/git/wiki")).isSome
    ∧ exampleEnv.repository_open (bytes "/srv/git/wiki") = true
    ∧ Fits exampleEnv (bytes "/srv/git/wiki")
    ∧ ∃ st1, iteration exampleEnv initialState (bytes "/srv/git/wiki") = Step.next st1
        ∧ st1.description = bytes "Project wiki\n" := by
  refine ⟨by decide, by decide, by decide, ?_⟩
  obtain ⟨st1, h, -, h2, -⟩ := C6_description_fallback exampleEnv initialState
    (bytes "/srv/git/wiki") (by decide) (by decide) (by decide)
  exact ⟨st1, h, (h2 (by decide) (bytes "Project wiki\nsecond line\n") (by decide)).trans
    (by decide)⟩

/-- C7, as the claim states it, fails: with `blog.git` (which has a
description) followed by `notes` (which has none), the row of `notes` has an
empty description cell; it is not the row with the default description.  And
with `blog.git` followed by `longPath` (which opens, has a head commit and has
no description file), the pass for `longPath` ends the process in `joinpath`
and renders no row. -/
theorem C7_counterexample :
    (main exampleEnv [bytes "/srv/git/blog.git", bytes "/srv/git/notes"] =
        Outcome.returned 0 (headerText
          ++ (bytes "<tr><td><a href=\"blog/\">blog</a></td><td>My blog</td><td>2023-01-01 12:00</td></tr>"
            ++ bytes "<tr><td><a href=\"notes/\">notes</a></td><td></td><td>2023-01-01 12:00</td></tr>")
          ++ footerText)
      ∧ bytes "<tr><td><a href=\"notes/\">notes</a></td><td></td><td>2023-01-01 12:00</td></tr>" ≠
          rowText (bytes "notes") defaultDescription (bytes "2023-01-01 12:00"))
    ∧ (exampleEnv.repository_open longPath = true
      ∧ exampleEnv.head longPath = some (some ⟨1672574400, 120⟩)
      ∧ exampleEnv.fopen (joined longPath (bytes "description")) = none
      ∧ exampleEnv.fopen (joined longPath (bytes ".git/description")) = none
      ∧ ∃ stA, iteration exampleEnv initialState (bytes "/srv/git/blog.git") = Step.next stA
          ∧ iteration exampleEnv stA longPath = Step.fatal stA.out) := by
  refine ⟨⟨?_, by decide⟩, longPath_open, longPath_head, fopen_longPath _, fopen_longPath _, ?_⟩
  · rw [main_ok exampleEnv _ (by simp) (by decide) (by decide)]
    have h1 : (if ∃ a ∈ [bytes "/srv/git/blog.git", bytes "/srv/git/notes"],
        exampleEnv.repository_open a = false then (1 : Int) else 0) = 0 := by decide
    have h2 : [bytes "/srv/git/blog.git", bytes "/srv/git/notes"].flatMap (rowOf exampleEnv) =
        bytes "<tr><td><a href=\"blog/\">blog</a></td><td>My blog</td><td>2023-01-01 12:00</td></tr>"
          ++ bytes "<tr><td><a href=\"notes/\">notes</a></td><td></td><td>2023-01-01 12:00</td></tr>" := by
      decide
    rw [h1, h2]
  · obtain ⟨stA, h, -⟩ := iteration_ok exampleEnv initialState (bytes "/srv/git/blog.git")
      (by decide) (by decide)
    exact ⟨stA, h, iteration_fatal exampleEnv stA longPath longPath_realpath longPath_open
      longPath_too_long⟩

/-- C7, amended: for every repository A with a readable description file (at
the top level, or else under `.git`) followed by a repository B with none at
either candidate place (both resolve, open, fit the path buffer and have a head
commit), the buffer holds A's description after A's pass, and B's row shows an
empty description: neither A's leftover value nor the process default. -/
theorem C7_reset_before_read (env : Env) (st : State) (A B cA : List Nat)
    (authorA authorB : Option GitTime)
    (hrA : (env.realpath A).isSome) (hoA : env.repository_open A = true) (hfA : Fits env A)
    (hdA : env.fopen (joined A (bytes "description")) = some cA
      ∨ (env.fopen (joined A (bytes "description")) = none
        ∧ env.fopen (joined A (bytes ".git/description")) = some cA))
    (hhA : env.head A = some authorA)
    (hrB : (env.realpath B).isSome) (hoB : env.repository_open B = true) (hfB : Fits env B)
    (hB1 : env.fopen (joined B (bytes "description")) = none)
    (hB2 : env.fopen (joined B (bytes ".git/description")) = none)
    (hhB : env.head B = some authorB) :
    ∃ stA stB, iteration env st A = Step.next stA
      ∧ stA.description = firstLine 254 cA
      ∧ stA.out = st.out ++ rowText (displayName env A) (firstLine 254 cA) (timeCell authorA)
      ∧ iteration env stA B = Step.next stB
      ∧ stB.out = stA.out ++ rowText (displayName env B) [] (timeCell authorB) := by
  obtain ⟨stA, hA, houtA, -, hdescA⟩ := iteration_ok env st A hrA (fun _ => hfA)
  obtain ⟨stB, hB, houtB, -, -⟩ := iteration_ok env stA B hrB (fun _ => hfB)
  have hA1 : resolvedDescription env A = firstLine 254 cA := by
    rcases hdA with h | ⟨h1, h2⟩
    · rw [resolvedDescription, h]
    · rw [resolvedDescription, h1, h2]
  have hB3 : resolvedDescription env B = [] := by
    rw [resolvedDescription, hB1, hB2]
  refine ⟨stA, stB, hA, ?_, ?_, hB, ?_⟩
  · rw [hdescA hoA, hA1]
  · rw [houtA, rowOf, hoA, hhA, hA1]
    simp
  · rw [houtB, rowOf, hoB, hhB, hB3]
    simp

/-- C7, amended, at `blog.git` followed by `notes`. -/
theorem C7_reset_before_read_witness :
    ((exampleEnv.realpath (bytes "/srv/git/blog.git")).isSome
      ∧ exampleEnv.repository_open (bytes "/srv/git/blog.git") = true
      ∧ Fits exampleEnv (bytes "/srv/git/blog.git")
      ∧ (exampleEnv.fopen (joined (bytes "/srv/git/blog.git") (bytes "description")) =
            some (bytes "My blog")
          ∨ (exampleEnv.fopen (joined (bytes "/srv/git/blog.git") (bytes "description")) = none
            ∧ exampleEnv.fopen (joined (bytes "/srv/git/blog.git") (bytes ".git/description")) =
              some (bytes "My blog")))
      ∧ exampleEnv.head (bytes "/srv/git/blog.git") = some (some ⟨1672574400, 120⟩)
      ∧ (exampleEnv.realpath (bytes "/srv/git/notes")).isSome
      ∧ exampleEnv.repository_open (bytes "/srv/git/notes") = true
      ∧ Fits exampleEnv (bytes "/srv/git/notes")
      ∧ exampleEnv.fopen (joined (bytes "/srv/git/notes") (bytes "description")) = none
      ∧ exampleEnv.fopen (joined (bytes "/srv/git/notes") (bytes ".git/description")) = none
      ∧ exampleEnv.head (bytes "/srv/git/notes") = some (some ⟨1672574400, 120⟩))
    ∧ ∃ stA stB, iteration exampleEnv initialState (bytes "/srv/git/blog.git") = Step.next stA
      ∧ stA.description = firstLine 254 (bytes "My blog")
      ∧ stA.out = initialState.out ++ rowText (displayName exampleEnv (bytes "/srv/git/blog.git"))
          (firstLine 254 (bytes "My blog")) (timeCell (some ⟨1672574400, 120⟩))
      ∧ iteration exampleEnv stA (bytes "/srv/git/notes") = Step.next stB
      ∧ stB.out = stA.out ++ rowText (displayName exampleEnv (bytes "/srv/git/notes")) []
          (timeCell (some ⟨1672574400, 120⟩)) :=
  ⟨by decide,
    C7_reset_before_read exampleEnv initialState (bytes "/srv/git/blog.git")
      (bytes "/srv/git/notes") (bytes "My blog") (some ⟨1672574400, 120⟩)
      (some ⟨1672574400, 120⟩) (by decide) (by decide) (by decide) (by decide) (by decide)
      (by decide) (by decide) (by decide) (by decide) (by decide) (by decide)⟩

/-- C8, as the claim states it, fails: the repository `/srv/git/tools` opens
and has no commit, and the document is the header followed at once by the
footer; no row, with whatever name, description and last-commit cell, is
rendered for it.  And given as `longTools`, the same repository opens, and the
run ends in `joinpath` with neither a row nor the footer. -/
theorem C8_counterexample :
    (exampleEnv.repository_open (bytes "/srv/git/tools") = true
      ∧ exampleEnv.head (bytes "/srv/git/tools") = none
      ∧ main exampleEnv [bytes "/srv/git/tools"] = Outcome.returned 0 (headerText ++ footerText)
      ∧ ∀ n d T, main exampleEnv [bytes "/srv/git/tools"] ≠
          Outcome.returned 0 (headerText ++ rowText n d T ++ footerText))
    ∧ (exampleEnv.repository_open longTools = true
      ∧ exampleEnv.head longTools = none
      ∧ main exampleEnv [longTools] = Outcome.exited 1 headerText) := by
  have hmain : main exampleEnv [bytes "/srv/git/tools"] =
      Outcome.returned 0 (headerText ++ footerText) := by
    rw [main_ok exampleEnv _ (by simp) (by decide) (by decide)]
    have h1 : (if ∃ a ∈ [bytes "/srv/git/tools"],
        exampleEnv.repository_open a = false then (1 : Int) else 0) = 0 := by decide
    have h2 : [bytes "/srv/git/tools"].flatMap (rowOf exampleEnv) = [] := by decide
    rw [h1, h2, List.append_nil]
  refine ⟨⟨by decide, by decide, hmain, ?_⟩, longTools_open, longTools_head, ?_⟩
  · intro n d T h
    rw [hmain, Outcome.returned.injEq, List.append_assoc] at h
    have h3 := List.append_cancel_left h.2
    have h4 : rowText n d T = [] := by
      have := congrArg List.length h3
      rw [List.length_append] at this
      exact List.length_eq_zero.mp (by omega)
    exact rowText_ne_nil n d T h4
  · have h := main_fatal exampleEnv [] [] longTools (by simp) (by simp) longTools_realpath
      longTools_open longTools_too_long
    simpa using h

/-- C8, amended: for every repository that opens and has no commit (the walk
yields none, or the head cannot be resolved), in an argument list whose paths
all resolve and fit the path buffer, the program renders no row for that
repository; the rows of the repositories before and after it are written, the
footer follows, and the exit status is the one the other repositories give. -/
theorem C8_empty_history (env : Env) (pre post : List (List Nat)) (a : List Nat)
    (hr : ∀ b ∈ pre ++ a :: post, (env.realpath b).isSome)
    (hf : ∀ b ∈ pre ++ a :: post, env.repository_open b = true → Fits env b)
    (ho : env.repository_open a = true) (hh : env.head a = none) :
    main env (pre ++ a :: post) =
      Outcome.returned (if ∃ b ∈ pre ++ post, env.repository_open b = false then 1 else 0)
        (headerText ++ (pre.flatMap (rowOf env) ++ post.flatMap (rowOf env)) ++ footerText) := by
  rw [main_ok env _ (by simp) hr hf]
  have ha : rowOf env a = [] := by simp [rowOf, ho, hh]
  have h1 : (pre ++ a :: post).flatMap (rowOf env) =
      pre.flatMap (rowOf env) ++ post.flatMap (rowOf env) := by
    rw [List.flatMap_append, List.flatMap_cons, ha, List.nil_append]
  have h2 : (∃ b ∈ pre ++ a :: post, env.repository_open b = false) ↔
      (∃ b ∈ pre ++ post, env.repository_open b = false) := by
    constructor
    · rintro ⟨b, hb, hbo⟩
      refine ⟨b, ?_, hbo⟩
      rcases List.mem_append.mp hb with h | h
      · exact List.mem_append.mpr (Or.inl h)
      · rcases List.mem_cons.mp h with h | h
        · rw [h, ho] at hbo
          exact absurd hbo (by simp)
        · exact List.mem_append.mpr (Or.inr h)
    · rintro ⟨b, hb, hbo⟩
      refine ⟨b, ?_, hbo⟩
      rcases List.mem_append.mp hb with h | h
      · exact List.mem_append.mpr (Or.inl h)
      · exact List.mem_append.mpr (Or.inr (List.mem_cons_of_mem _ h))
  rw [h1]
  simp only [h2]

/-- C8, amended, at the argument list `blog.git`, `tools`, `notes`. -/
theorem C8_empty_history_witness :
    ((∀ b ∈ [bytes "/srv/git/blog.git"] ++ bytes "/srv/git/tools" :: [bytes "/srv/git/notes"],
        (exampleEnv.realpath b).isSome)
      ∧ (∀ b ∈ [bytes "/srv/git/blog.git"] ++ bytes "/srv/git/tools" :: [bytes "/srv/git/notes"],
        exampleEnv.repository_open b = true → Fits exampleEnv b)
      ∧ exampleEnv.repository_open (bytes "/srv/git/tools") = true
      ∧ exampleEnv.head (bytes "/srv/git/tools") = none)
    ∧ main exampleEnv
        ([bytes "/srv/git/blog.git"] ++ bytes "/srv/git/tools" :: [bytes "/srv/git/notes"]) =
      Outcome.returned
        (if ∃ b ∈ [bytes "/srv/git/blog.git"] ++ [bytes "/srv/git/notes"],
          exampleEnv.repository_open b = false then 1 else 0)
        (headerText ++ ([bytes "/srv/git/blog.git"].flatMap (rowOf exampleEnv)
          ++ [bytes "/srv/git/notes"].flatMap (rowOf exampleEnv)) ++ footerText) :=
  ⟨by decide,
    C8_empty_history exampleEnv [bytes "/srv/git/blog.git"] [bytes "/srv/git/notes"]
      (bytes "/srv/git/tools") (by decide) (by decide) (by decide) (by decide)⟩

/-- C9, as the claim states it, fails: every path resolves, yet the run on
`longPath` alone ends with status 1 although no repository failed to open
(`joinpath` ends the process, `main` does not return), and in the run on
`missing`, `longPath` the failed open is followed by no footer. -/
theorem C9_counterexample :
    (∀ a ∈ [bytes "/srv/git/missing", longPath], (exampleEnv.realpath a).isSome)
    ∧ exampleEnv.repository_open longPath = true
    ∧ exampleEnv.repository_open (bytes "/srv/git/missing") = false
    ∧ main exampleEnv [longPath] = Outcome.exited 1 headerText
    ∧ main exampleEnv [bytes "/srv/git/missing", longPath] = Outcome.exited 1 headerText := by
  refine ⟨?_, longPath_open, by decide, ?_, ?_⟩
  · intro a ha
    rcases List.mem_cons.mp ha with h | h
    · rw [h]; decide
    · rw [List.mem_singleton.mp h]; exact longPath_realpath
  · have h := main_fatal exampleEnv [] [] longPath (by simp) (by simp) longPath_realpath
      longPath_open longPath_too_long
    simpa using h
  · have h := main_fatal exampleEnv [bytes "/srv/git/missing"] [] longPath (by decide)
      (by decide) longPath_realpath longPath_open longPath_too_long
    have h2 : [bytes "/srv/git/missing"].flatMap (rowOf exampleEnv) = [] := by decide
    rw [h2, List.append_nil] at h
    exact h

/-- C9, amended: for every non-empty argument list whose paths all resolve to
absolute paths and whose repositories that open have candidate paths that fit
the path buffer, `main` returns, with exit code 1 if and only if at least one
repository failed to open and 0 otherwise; a failed open does not stop the
loop: the output is the header, what each argument in turn contributes (also
those after a failed open), and the footer. -/
theorem C9_exit_code (env : Env) (args : List (List Nat)) (hne : args ≠ [])
    (hr : ∀ a ∈ args, (env.realpath a).isSome)
    (hf : ∀ a ∈ args, env.repository_open a = true → Fits env a) :
    ∃ code, main env args =
        Outcome.returned code (headerText ++ args.flatMap (rowOf env) ++ footerText)
      ∧ (code = 1 ↔ ∃ a ∈ args, env.repository_open a = false)
      ∧ (code = 0 ↔ ¬ ∃ a ∈ args, env.repository_open a = false) := by
  refine ⟨_, main_ok env args hne hr hf, ?_, ?_⟩
  · by_cases h : ∃ a ∈ args, env.repository_open a = false
    · simp [h]
    · simp [h]
  · by_cases h : ∃ a ∈ args, env.repository_open a = false
    · simp [h]
    · simp [h]

/-- C9, amended, at the argument list `missing`, `blog.git`: the exit code is 1
and the row of `blog.git` and the footer are written after the failed open. -/
theorem C9_exit_code_witness :
    ([bytes "/srv/git/missing", bytes "/srv/git/blog.git"] ≠ []
      ∧ (∀ a ∈ [bytes "/srv/git/missing", bytes "/srv/git/blog.git"],
          (exampleEnv.realpath a).isSome)
      ∧ (∀ a ∈ [bytes "/srv/git/missing", bytes "/srv/git/blog.git"],
          exampleEnv.repository_open a = true → Fits exampleEnv a))
    ∧ ∃ code, main exampleEnv [bytes "/srv/git/missing", bytes "/srv/git/blog.git"] =
        Outcome.returned code (headerText
          ++ [bytes "/srv/git/missing", bytes "/srv/git/blog.git"].flatMap (rowOf exampleEnv)
          ++ footerText)
      ∧ (code = 1 ↔ ∃ a ∈ [bytes "/srv/git/missing", bytes "/srv/git/blog.git"],
          exampleEnv.repository_open a = false)
      ∧ (code = 0 ↔ ¬ ∃ a ∈ [bytes "/srv/git/missing", bytes "/srv/git/blog.git"],
          exampleEnv.repository_open a = false) :=
  ⟨by decide,
    C9_exit_code exampleEnv [bytes "/srv/git/missing", bytes "/srv/git/blog.git"]
      (by decide) (by decide) (by decide)⟩

/-- C10, as the claim states it, fails: in the run on `blog.git`, `longPath`
both repositories open and have a head commit, yet the run ends in `joinpath`
with neither a row for the second nor a footer; the repository `future` opens
and has a head commit, yet its last-commit cell is empty, because `gmtime`
cannot represent the author time; the cells of `y10k` and `y999` are
`10000-01-01 00:00` and `999-12-31 23:59`, not of the form `YYYY-MM-DD HH:MM`;
and for the empty argument list nothing is written at all. -/
theorem C10_counterexample :
    (∀ a ∈ [bytes "/srv/git/blog.git", longPath, bytes "/srv/git/future",
          bytes "/srv/git/y10k", bytes "/srv/git/y999"],
        exampleEnv.repository_open a = true ∧ ∃ w, exampleEnv.head a = some (some w))
    ∧ main exampleEnv [bytes "/srv/git/blog.git", longPath] =
        Outcome.exited 1 (headerText
          ++ bytes "<tr><td><a href=\"blog/\">blog</a></td><td>My blog</td><td>2023-01-01 12:00</td></tr>")
    ∧ main exampleEnv [bytes "/srv/git/future"] =
        Outcome.returned 0 (headerText
          ++ bytes "<tr><td><a href=\"future/\">future</a></td><td></td><td></td></tr>"
          ++ footerText)
    ∧ main exampleEnv [bytes "/srv/git/y10k", bytes "/srv/git/y999"] =
        Outcome.returned 0 (headerText
          ++ (bytes "<tr><td><a href=\"y10k/\">y10k</a></td><td></td><td>10000-01-01 00:00</td></tr>"
            ++ bytes "<tr><td><a href=\"y999/\">y999</a></td><td></td><td>999-12-31 23:59</td></tr>")
          ++ footerText)
    ∧ main exampleEnv [] = Outcome.returned 1 [] := by
  refine ⟨?_, ?_, ?_, ?_, rfl⟩
  · intro a ha
    simp only [List.mem_cons, List.mem_singleton, List.not_mem_nil, or_false] at ha
    rcases ha with h | h | h | h | h
    · rw [h]; exact ⟨by decide, GitTime.mk 1672574400 120, by decide⟩
    · rw [h]; exact ⟨longPath_open, _, longPath_head⟩
    · rw [h]; exact ⟨by decide, GitTime.mk 4611686018427387904 0, by decide⟩
    · rw [h]; exact ⟨by decide, GitTime.mk 253402300800 0, by decide⟩
    · rw [h]; exact ⟨by decide, GitTime.mk (-30610224001) 0, by decide⟩
  · have h := main_fatal exampleEnv [bytes "/srv/git/blog.git"] [] longPath (by decide)
      (by decide) longPath_realpath longPath_open longPath_too_long
    have h2 : [bytes "/srv/git/blog.git"].flatMap (rowOf exampleEnv) =
        bytes "<tr><td><a href=\"blog/\">blog</a></td><td>My blog</td><td>2023-01-01 12:00</td></tr>" := by
      decide
    rw [h2] at h
    exact h
  · rw [main_ok exampleEnv _ (by simp) (by decide) (by decide)]
    have h1 : (if ∃ a ∈ [bytes "/srv/git/future"],
        exampleEnv.repository_open a = false then (1 : Int) else 0) = 0 := by decide
    have h2 : [bytes "/srv/git/future"].flatMap (rowOf exampleEnv) =
        bytes "<tr><td><a href=\"future/\">future</a></td><td></td><td></td></tr>" := by
      decide
    rw [h1, h2]
  · rw [main_ok exampleEnv _ (by simp) (by decide) (by decide)]
    have h1 : (if ∃ a ∈ [bytes "/srv/git/y10k", bytes "/srv/git/y999"],
        exampleEnv.repository_open a = false then (1 : Int) else 0) = 0 := by decide
    have h2 : [bytes "/srv/git/y10k", bytes "/srv/git/y999"].flatMap (rowOf exampleEnv) =
        bytes "<tr><td><a href=\"y10k/\">y10k</a></td><td></td><td>10000-01-01 00:00</td></tr>"
          ++ bytes "<tr><td><a href=\"y999/\">y999</a></td><td></td><td>999-12-31 23:59</td></tr>" := by
      decide
    rw [h1, h2]

/-- C10, amended: for every non-empty argument list in which each repository
resolves, opens, has candidate paths that fit the path buffer, and has a head
commit whose author time lies in the years 1000 to 9999, `main` returns 0 and
the text between header and footer is the concatenation, in argument order, of
one row per repository, each row being
`<tr><td><a href="E(n)/">E(n)</a></td><td>E(d)</td><td>T</td></tr>` with `n`
the display name, `d` the resolved description, `E` `xmlencode` over the full
string and `T` the author time as `YYYY-MM-DD HH:MM` in UTC: the digits of the
year, month, day, hour and minute of the Gregorian date and time that the
author time falls in (the timezone offset is not used); `blog.git` with the
description "My blog" and the time 2023-01-01T12:00:00Z (offset +120 minutes)
gives
`<tr><td><a href="blog/">blog</a></td><td>My blog</td><td>2023-01-01 12:00</td></tr>`. -/
theorem C10_rows (env : Env) (args : List (List Nat)) (hne : args ≠ [])
    (hr : ∀ a ∈ args, (env.realpath a).isSome)
    (ho : ∀ a ∈ args, env.repository_open a = true)
    (hf : ∀ a ∈ args, Fits env a)
    (hh : ∀ a ∈ args, ∃ w, env.head a = some (some w)
      ∧ -30610224000 ≤ w.time ∧ w.time < 253402300800) :
    main env args =
      Outcome.returned 0 (headerText
        ++ args.flatMap (fun a =>
            bytes "<tr><td><a href=\"" ++ xmlencode [] (displayName env a) (strlen (displayName env a))
              ++ bytes "/\">" ++ xmlencode [] (displayName env a) (strlen (displayName env a))
              ++ bytes "</a></td><td>"
              ++ xmlencode [] (resolvedDescription env a) (strlen (resolvedDescription env a))
              ++ bytes "</td><td>" ++ timeText (authorTime env a) ++ bytes "</td></tr>")
        ++ footerText)
    ∧ (∀ a ∈ args, ∃ Y M D h m : Nat,
        1000 ≤ Y ∧ Y ≤ 9999 ∧ 1 ≤ M ∧ M ≤ 12 ∧ 1 ≤ D ∧ (D : Int) ≤ monthLength Y M
        ∧ h ≤ 23 ∧ m ≤ 59
        ∧ daysFromCivil Y M D * 86400 + h * 3600 + m * 60 ≤ authorTime env a
        ∧ authorTime env a < daysFromCivil Y M D * 86400 + h * 3600 + m * 60 + 60
        ∧ timeText (authorTime env a) = shortTimeText Y M D h m)
    ∧ exampleEnv.head (bytes "/srv/git/blog.git") = some (some ⟨1672574400, 120⟩)
    ∧ main exampleEnv [bytes "/srv/git/blog.git"] =
        Outcome.returned 0 (headerText
          ++ bytes "<tr><td><a href=\"blog/\">blog</a></td><td>My blog</td><td>2023-01-01 12:00</td></tr>"
          ++ footerText) := by
  refine ⟨?_, ?_, by decide, ?_⟩
  · rw [main_ok env args hne hr (fun a ha _ => hf a ha)]
    have h1 : ¬ ∃ a ∈ args, env.repository_open a = false := by
      rintro ⟨a, ha, hao⟩
      rw [ho a ha] at hao
      exact absurd hao (by simp)
    have h2 : ∀ l : List (List Nat), (∀ a ∈ l, a ∈ args) →
        l.flatMap (rowOf env) = l.flatMap (fun a =>
          bytes "<tr><td><a href=\"" ++ xmlencode [] (displayName env a) (strlen (displayName env a))
            ++ bytes "/\">" ++ xmlencode [] (displayName env a) (strlen (displayName env a))
            ++ bytes "</a></td><td>"
            ++ xmlencode [] (resolvedDescription env a) (strlen (resolvedDescription env a))
            ++ bytes "</td><td>" ++ timeText (authorTime env a) ++ bytes "</td></tr>") := by
      intro l
      induction l with
      | nil => intro _; rfl
      | cons a l ih =>
        intro hl
        obtain ⟨w, hw, -⟩ := hh a (hl a (by simp))
        rw [List.flatMap_cons, List.flatMap_cons, ih (fun b hb => hl b (by simp [hb]))]
        congr 1
        simp [rowOf, ho a (hl a (by simp)), hw, rowText, timeCell, authorTime]
    rw [if_neg h1, h2 args (fun a ha => ha)]
  · intro a ha
    obtain ⟨w, hw, hlo, hhi⟩ := hh a ha
    have hat : authorTime env a = w.time := by
      unfold authorTime
      rw [hw]
    rw [hat]
    exact timeText_spec w.time hlo hhi
  · rw [main_ok exampleEnv _ (by simp) (by decide) (by decide)]
    have h1 : (if ∃ a ∈ [bytes "/srv/git/blog.git"],
        exampleEnv.repository_open a = false then (1 : Int) else 0) = 0 := by decide
    have h2 : [bytes "/srv/git/blog.git"].flatMap (rowOf exampleEnv) =
        bytes "<tr><td><a href=\"blog/\">blog</a></td><td>My blog</td><td>2023-01-01 12:00</td></tr>" := by
      decide
    rw [h1, h2]

/-- C10, amended, at the argument list `blog.git`, `wiki`, `notes`. -/
theorem C10_rows_witness :
    ([bytes "/srv/git/blog.git", bytes "/srv/git/wiki", bytes "/srv/git/notes"] ≠ []
      ∧ (∀ a ∈ [bytes "/srv/git/blog.git", bytes "/srv/git/wiki", bytes "/srv/git/notes"],
          (exampleEnv.realpath a).isSome)
      ∧ (∀ a ∈ [bytes "/srv/git/blog.git", bytes "/srv/git/wiki", bytes "/srv/git/notes"],
          exampleEnv.repository_open a = true)
      ∧ (∀ a ∈ [bytes "/srv/git/blog.git", bytes "/srv/git/wiki", bytes "/srv/git/notes"],
          Fits exampleEnv a))
    ∧ main exampleEnv [bytes "/srv/git/blog.git", bytes "/srv/git/wiki", bytes "/srv/git/notes"] =
      Outcome.returned 0 (headerText
        ++ [bytes "/srv/git/blog.git", bytes "/srv/git/wiki", bytes "/srv/git/notes"].flatMap
          (fun a =>
            bytes "<tr><td><a href=\"" ++ xmlencode [] (displayName exampleEnv a)
                (strlen (displayName exampleEnv a))
              ++ bytes "/\">" ++ xmlencode [] (displayName exampleEnv a)
                (strlen (displayName exampleEnv a))
              ++ bytes "</a></td><td>"
              ++ xmlencode [] (resolvedDescription exampleEnv a)
                (strlen (resolvedDescription exampleEnv a))
              ++ bytes "</td><td>" ++ timeText (authorTime exampleEnv a) ++ bytes "</td></tr>")
        ++ footerText) :=
  ⟨by decide,
    (C10_rows exampleEnv [bytes "/srv/git/blog.git", bytes "/srv/git/wiki", bytes "/srv/git/notes"]
      (by decide) (by decide) (by decide) (by decide)
      (by
        intro a ha
        simp only [List.mem_cons, List.mem_singleton, List.not_mem_nil, or_false] at ha
        rcases ha with h | h | h
        · rw [h]; exact ⟨GitTime.mk 1672574400 120, by decide, by decide, by decide⟩
        · rw [h]; exact ⟨GitTime.mk 1672574400 120, by decide, by decide, by decide⟩
        · rw [h]; exact ⟨GitTime.mk 1672574400 120, by decide, by decide, by decide⟩)).1⟩

end StagitIndex
